import Mathlib

/-!
Verification of the campaign engagement tracking and metrics engine of the
Ethical Phishing Simulation Platform.

The Python source is shallowly embedded: the relational tables (`Campaign`,
`CampaignTarget`, `EmailEvent`) become lists inside a `Db` record, the Flask
request handlers in `routes/tracking.py` and `routes/campaigns.py` become pure
functions `Db → ... → Response × Db`, the bulk dispatcher in
`services/email_service.py` becomes a fold over the pending snapshot, and the
helper functions in `utils/helpers.py` / `utils/security.py` are translated
directly.  External effects (the Redis counter store, the mail capability,
the MD5 user-agent digest, `os.urandom` seeds) are passed in as explicit
oracle arguments, so every definition stays computable.
-/

namespace Phishing

/-- `CampaignTarget.status` values (models.py line 98). -/
inductive TargetStatus
  | pending
  | sent
  | opened
  | clicked
  | submitted
deriving DecidableEq, Repr

/-- `Campaign.status` values (models.py line 58). -/
inductive CampaignStatus
  | draft
  | active
  | paused
  | completed
deriving DecidableEq, Repr

/-- `EmailEvent.event_type` values (models.py line 122). -/
inductive EventType
  | sent
  | opened
  | clicked
  | submitted
  | bounced
deriving DecidableEq, Repr

/-- Position of a status in the funnel `pending → sent → opened → clicked →
submitted`; used to state the forward-only property. -/
def TargetStatus.rank : TargetStatus → Nat
  | .pending => 0
  | .sent => 1
  | .opened => 2
  | .clicked => 3
  | .submitted => 4

/-- The JSON metadata dict attached to an `EmailEvent`.  Each constructor
mirrors the dict literal built at the corresponding source site:
`engagement` for `track_open`/`track_click` (referer + timestamp),
`submission` for `track_submission` (received flag, timestamp, user-agent
hash — never any form field values), `sentInfo` for
`EmailSender.log_sent_event`, `bounce` for `EmailSender.log_error_event`. -/
inductive EventMeta
  | engagement (referer : Option String) (timestamp : Nat)
  | submission (form_data_received : Bool) (timestamp : Nat) (user_agent_hash : String)
  | sentInfo (server_time : Nat) (campaign_name : String) (template_name : String)
  | bounce (error : String) (timestamp : Nat)
deriving DecidableEq, Repr

/-- `EmailEvent` row (models.py lines 116-135); timestamps are abstract
clock values `Nat`. -/
structure EmailEvent where
  campaign_target_id : Nat
  event_type : EventType
  ip_address : Option String
  user_agent : Option String
  metadata : EventMeta
deriving DecidableEq, Repr

/-- `CampaignTarget` row (models.py lines 91-114). -/
structure CampaignTarget where
  id : Nat
  campaign_id : Nat
  target_id : Nat
  status : TargetStatus
  unique_token : String
  sent_at : Option Nat
deriving DecidableEq, Repr

/-- `Template` row (models.py lines 30-48); only the fields the embedded
operations read. -/
structure Template where
  id : Nat
  name : String
  subject : String
  html_content : String
deriving DecidableEq, Repr

/-- `Campaign` row (models.py lines 50-71). -/
structure Campaign where
  id : Nat
  name : String
  template_id : Nat
  status : CampaignStatus
  consent_verified : Bool
  started_at : Option Nat
  completed_at : Option Nat
deriving DecidableEq, Repr

/-- The relational store: the tables touched by the tracking state machine,
the dispatcher and the metrics engine. -/
structure Db where
  campaigns : List Campaign
  templates : List Template
  targets : List CampaignTarget
  events : List EmailEvent
deriving DecidableEq, Repr

/-- An inbound HTTP request as seen by the tracking handlers: client address
(`X-Forwarded-For` / `remote_addr` already resolved), `User-Agent` and
`Referer` headers, the posted form payload, and the current clock value used
for `datetime.now()` timestamps. -/
structure Request where
  ip : String
  user_agent : Option String
  referer : Option String
  form_data : List (String × String)
  time : Nat
deriving DecidableEq, Repr

/-- `CampaignTarget.query.filter_by(unique_token=token).first()`. -/
def findTargetByToken (db : Db) (token : String) : Option CampaignTarget :=
  db.targets.find? (fun ct => ct.unique_token == token)

/-- `Campaign.query.get(cid)`. -/
def findCampaign (db : Db) (cid : Nat) : Option Campaign :=
  db.campaigns.find? (fun c => c.id == cid)

/-- `Template.query.get(tid)`. -/
def findTemplate (db : Db) (tid : Nat) : Option Template :=
  db.templates.find? (fun t => t.id == tid)

/-- `EmailEvent.query.filter_by(campaign_target_id=..., event_type=...).first()`
turned into a Boolean existence check. -/
def hasEvent (db : Db) (ctid : Nat) (ty : EventType) : Bool :=
  db.events.any (fun e => e.campaign_target_id == ctid && e.event_type == ty)

/-- `db.session.add(event)`: the event log is append-only. -/
def addEvent (db : Db) (e : EmailEvent) : Db :=
  { db with events := db.events ++ [e] }

/-- In-place ORM update of the row(s) with the given id; SQLAlchemy mutates
the single matching row, here every row carrying that id (ids are unique in
the real store). -/
def updateTarget (db : Db) (ctid : Nat) (f : CampaignTarget → CampaignTarget) : Db :=
  { db with targets := db.targets.map (fun ct => if ct.id == ctid then f ct else ct) }

/-- Same for campaigns. -/
def updateCampaign (db : Db) (cid : Nat) (f : Campaign → Campaign) : Db :=
  { db with campaigns := db.campaigns.map (fun c => if c.id == cid then f c else c) }

/-- Outcome of the `redis` block in `rate_limit_check` (security.py lines
119-134): either the client raised somewhere (import, connection, get/incr) —
`unavailable` — or the `GET rate_limit:{identifier}` returned the stored
counter (`none` when the key is absent). -/
inductive RedisResult
  | unavailable
  | avail (current : Option Nat)
deriving DecidableEq, Repr

/-- `rate_limit_check` (security.py lines 114-134).  Only the returned
Boolean is modelled; the `incr`/`set` side effects on the counter store stay
inside the oracle.  A stored counter is truthy in Python (non-empty bytes),
so the `if current and int(current) >= limit` test is `limit ≤ c`. -/
def rate_limit_check (identifier : String) (limit : Nat) (window : Nat)
    (redis : RedisResult) : Bool :=
  match redis with
  | .unavailable => true
  | .avail current =>
    match current with
    | some c => if limit ≤ c then false else true
    | none => true

/-- The user-visible outcomes of the three tracking routes. -/
inductive TrackResponse
  | pixel
  | emptyBody (code : Nat)
  | errorPage (code : Nat)
  | trainingPage (campaign_id : Nat)
  | jsonError (message : String) (code : Nat)
  | submitAck
deriving DecidableEq, Repr

/-- `track_open` (tracking.py lines 11-60).  Response and updated store;
the commit at line 53 is the returned `Db`. -/
def track_open (db : Db) (token : String) (req : Request)
    (redis : RedisResult) : TrackResponse × Db :=
  if rate_limit_check ("open_" ++ req.ip) 30 60 redis = false then
    (.emptyBody 429, db)
  else
    match findTargetByToken db token with
    | none => (.emptyBody 404, db)
    | some ct =>
      if hasEvent db ct.id .opened then
        (.pixel, db)
      else
        let ev : EmailEvent :=
          { campaign_target_id := ct.id
            event_type := .opened
            ip_address := some req.ip
            user_agent := req.user_agent
            metadata := .engagement req.referer req.time }
        let db1 := addEvent db ev
        let db2 :=
          if ct.status = .sent then
            updateTarget db1 ct.id (fun c => { c with status := .opened })
          else db1
        (.pixel, db2)

/-- `track_click` (tracking.py lines 62-120).  The phishing-indicator
derivation on the training page is pure display data; the response carries
the campaign id that the page is rendered for. -/
def track_click (db : Db) (token : String) (req : Request)
    (redis : RedisResult) : TrackResponse × Db :=
  if rate_limit_check ("click_" ++ req.ip) 20 60 redis = false then
    (.emptyBody 429, db)
  else
    match findTargetByToken db token with
    | none => (.errorPage 404, db)
    | some ct =>
      let db' :=
        if hasEvent db ct.id .clicked then db
        else
          let ev : EmailEvent :=
            { campaign_target_id := ct.id
              event_type := .clicked
              ip_address := some req.ip
              user_agent := req.user_agent
              metadata := .engagement req.referer req.time }
          let db1 := addEvent db ev
          if ct.status = .sent ∨ ct.status = .opened then
            updateTarget db1 ct.id (fun c => { c with status := .clicked })
          else db1
      match findCampaign db' ct.campaign_id with
      | none => (.errorPage 404, db')
      | some c => (.trainingPage c.id, db')

/-- `track_submission` (tracking.py lines 122-177).  `uaHash` is the
`hashlib.md5(...).hexdigest()[:16]` digest (tracking.py lines 290-293),
treated as an abstract function.  The handler never reads `request.form`:
the submitted field values do not occur in this definition, mirroring the
source, which only flags that data was received.  The audit-log side table is
out of the modelled store. -/
def track_submission (uaHash : String → String) (db : Db) (token : String)
    (req : Request) (redis : RedisResult) : TrackResponse × Db :=
  if rate_limit_check ("submit_" ++ req.ip) 10 300 redis = false then
    (.jsonError "Too many submissions" 429, db)
  else
    match findTargetByToken db token with
    | none => (.jsonError "Invalid token" 404, db)
    | some ct =>
      let db' :=
        if hasEvent db ct.id .submitted then db
        else
          let ev : EmailEvent :=
            { campaign_target_id := ct.id
              event_type := .submitted
              ip_address := some req.ip
              user_agent := req.user_agent
              metadata := .submission true req.time (uaHash ((req.user_agent).getD "")) }
          let db1 := addEvent db ev
          updateTarget db1 ct.id (fun c => { c with status := .submitted })
      (.submitAck, db')

/-- One inbound tracking trigger together with its request context and the
rate-limit oracle outcome. -/
inductive Trigger
  | openT (token : String) (req : Request) (redis : RedisResult)
  | clickT (token : String) (req : Request) (redis : RedisResult)
  | submitT (token : String) (req : Request) (redis : RedisResult)
deriving DecidableEq, Repr

/-- State effect of one trigger. -/
def stepTrigger (uaHash : String → String) (db : Db) : Trigger → Db
  | .openT token req redis => (track_open db token req redis).2
  | .clickT token req redis => (track_click db token req redis).2
  | .submitT token req redis => (track_submission uaHash db token req redis).2

/-- State after a sequence of triggers, oldest first. -/
def runTriggers (uaHash : String → String) (db : Db) (ts : List Trigger) : Db :=
  ts.foldl (stepTrigger uaHash) db

/-- Pointwise relation between a targets table before and after an operation:
every row keeps its identity (id, campaign, target, token) and its status
rank never decreases. -/
def TargetAdvances (l1 l2 : List CampaignTarget) : Prop :=
  List.Forall₂
    (fun a b => a.id = b.id ∧ a.campaign_id = b.campaign_id ∧
      a.target_id = b.target_id ∧ a.unique_token = b.unique_token ∧
      a.status.rank ≤ b.status.rank) l1 l2

lemma targetAdvances_refl (l : List CampaignTarget) : TargetAdvances l l :=
  List.forall₂_same.mpr (fun _ _ => ⟨rfl, rfl, rfl, rfl, le_refl _⟩)

lemma targetAdvances_trans {l1 l2 l3 : List CampaignTarget}
    (h12 : TargetAdvances l1 l2) (h23 : TargetAdvances l2 l3) : TargetAdvances l1 l3 := by
  induction h12 generalizing l3 with
  | nil => cases h23; exact List.Forall₂.nil
  | cons hab _ ih =>
    cases h23 with
    | cons hbc htail =>
      exact List.Forall₂.cons
        ⟨hab.1.trans hbc.1, hab.2.1.trans hbc.2.1, hab.2.2.1.trans hbc.2.2.1,
          hab.2.2.2.1.trans hbc.2.2.2.1, hab.2.2.2.2.trans hbc.2.2.2.2⟩ (ih htail)

lemma targetAdvances_ids {l1 l2 : List CampaignTarget} (h : TargetAdvances l1 l2) :
    l1.map CampaignTarget.id = l2.map CampaignTarget.id := by
  induction h with
  | nil => rfl
  | cons hab _ ih => simpa [hab.1] using ih

lemma nodup_map_inj {α β : Type} {f : α → β} {l : List α} {a b : α}
    (h : (l.map f).Nodup) (ha : a ∈ l) (hb : b ∈ l) (hf : f a = f b) : a = b := by
  induction l with
  | nil => cases ha
  | cons c cs ih =>
    rw [List.map_cons, List.nodup_cons] at h
    rcases List.mem_cons.mp ha with rfl | ha' <;>
      rcases List.mem_cons.mp hb with rfl | hb'
    · rfl
    · exact absurd (hf ▸ List.mem_map_of_mem f hb') h.1
    · exact absurd (hf ▸ List.mem_map_of_mem f ha') h.1
    · exact ih h.2 ha' hb'

/-- Raising one row's status (located by primary key) advances the table,
provided primary keys are unique, as the storage layer guarantees. -/
lemma targetAdvances_map_update {l : List CampaignTarget} {ct : CampaignTarget}
    {s' : TargetStatus} (hnd : (l.map CampaignTarget.id).Nodup) (hmem : ct ∈ l)
    (hrank : ct.status.rank ≤ s'.rank) :
    TargetAdvances l (l.map fun c => if c.id == ct.id then { c with status := s' } else c) := by
  rw [TargetAdvances, List.forall₂_map_right_iff]
  refine List.forall₂_same.mpr (fun a ha => ?_)
  by_cases hid : a.id = ct.id
  · have haeq : a = ct := nodup_map_inj hnd ha hmem hid
    subst haeq
    simp [hrank]
  · simp [hid]

lemma addEvent_targets (db : Db) (e : EmailEvent) : (addEvent db e).targets = db.targets := rfl

lemma track_open_advances (db : Db) (token : String) (req : Request)
    (redis : RedisResult) (hnd : (db.targets.map CampaignTarget.id).Nodup) :
    TargetAdvances db.targets (track_open db token req redis).2.targets := by
  unfold track_open
  split
  · exact targetAdvances_refl _
  · cases hfind : findTargetByToken db token with
    | none => exact targetAdvances_refl _
    | some ct =>
      have hmem : ct ∈ db.targets := by
        have := List.mem_of_find?_eq_some hfind
        exact this
      simp only
      split
      · exact targetAdvances_refl _
      · split
        next hsent =>
          exact targetAdvances_map_update hnd hmem (by rw [hsent]; decide)
        next => exact targetAdvances_refl _

lemma track_click_advances (db : Db) (token : String) (req : Request)
    (redis : RedisResult) (hnd : (db.targets.map CampaignTarget.id).Nodup) :
    TargetAdvances db.targets (track_click db token req redis).2.targets := by
  unfold track_click
  split
  · exact targetAdvances_refl _
  · cases hfind : findTargetByToken db token with
    | none => exact targetAdvances_refl _
    | some ct =>
      have hmem : ct ∈ db.targets := List.mem_of_find?_eq_some hfind
      have hdb' : TargetAdvances db.targets
          (if hasEvent db ct.id .clicked then db
           else
             let ev : EmailEvent :=
               { campaign_target_id := ct.id, event_type := .clicked,
                 ip_address := some req.ip, user_agent := req.user_agent,
                 metadata := .engagement req.referer req.time }
             let db1 := addEvent db ev
             if ct.status = .sent ∨ ct.status = .opened then
               updateTarget db1 ct.id (fun c => { c with status := .clicked })
             else db1).targets := by
        split
        · exact targetAdvances_refl _
        · split
          next hso =>
            refine targetAdvances_map_update hnd hmem ?_
            rcases hso with h | h <;> rw [h] <;> decide
          next => exact targetAdvances_refl _
      simp only
      split <;> exact hdb'

lemma rank_le_submitted (s : TargetStatus) : s.rank ≤ TargetStatus.submitted.rank := by
  cases s <;> decide

lemma track_submission_advances (uaHash : String → String) (db : Db) (token : String)
    (req : Request) (redis : RedisResult) (hnd : (db.targets.map CampaignTarget.id).Nodup) :
    TargetAdvances db.targets (track_submission uaHash db token req redis).2.targets := by
  unfold track_submission
  split
  · exact targetAdvances_refl _
  · cases hfind : findTargetByToken db token with
    | none => exact targetAdvances_refl _
    | some ct =>
      have hmem : ct ∈ db.targets := List.mem_of_find?_eq_some hfind
      simp only
      split
      · exact targetAdvances_refl _
      · exact targetAdvances_map_update hnd hmem (rank_le_submitted _)

lemma stepTrigger_advances (uaHash : String → String) (db : Db) (t : Trigger)
    (hnd : (db.targets.map CampaignTarget.id).Nodup) :
    TargetAdvances db.targets (stepTrigger uaHash db t).targets := by
  cases t with
  | openT token req redis => exact track_open_advances db token req redis hnd
  | clickT token req redis => exact track_click_advances db token req redis hnd
  | submitT token req redis => exact track_submission_advances uaHash db token req redis hnd

lemma runTriggers_advances (uaHash : String → String) (db : Db) (ts : List Trigger)
    (hnd : (db.targets.map CampaignTarget.id).Nodup) :
    TargetAdvances db.targets (runTriggers uaHash db ts).targets := by
  induction ts generalizing db with
  | nil => exact targetAdvances_refl _
  | cons t ts ih =>
    have h1 := stepTrigger_advances uaHash db t hnd
    have hnd' : ((stepTrigger uaHash db t).targets.map CampaignTarget.id).Nodup :=
      (targetAdvances_ids h1) ▸ hnd
    exact targetAdvances_trans h1 (ih (stepTrigger uaHash db t) hnd')

/-- A store is submit-consistent when every target that already carries a
`submitted` event has status `submitted`; this is exactly what the atomic
event-plus-status commit of `track_submission` maintains. -/
def SubmitConsistent (db : Db) : Prop :=
  ∀ ct ∈ db.targets, hasEvent db ct.id .submitted = true → ct.status = .submitted

/-- An empty store, used as a concrete evaluation point. -/
def emptyDb : Db := { campaigns := [], templates := [], targets := [], events := [] }

/-- A minimal concrete request. -/
def req0 : Request :=
  { ip := "10.0.0.1", user_agent := none, referer := none, form_data := [], time := 0 }

lemma forall₂_map_update {l : List CampaignTarget} {ct : CampaignTarget}
    {s' : TargetStatus} {r : CampaignTarget → CampaignTarget → Prop}
    (hnd : (l.map CampaignTarget.id).Nodup) (hmem : ct ∈ l)
    (hchange : r ct { ct with status := s' }) (hkeep : ∀ a, r a a) :
    List.Forall₂ r l (l.map fun c => if c.id == ct.id then { c with status := s' } else c) := by
  rw [List.forall₂_map_right_iff]
  refine List.forall₂_same.mpr (fun a ha => ?_)
  by_cases hid : a.id = ct.id
  · have haeq : a = ct := nodup_map_inj hnd ha hmem hid
    subst haeq
    simpa using hchange
  · simpa [hid] using hkeep a

/-- A concrete target used by several witnesses: already `clicked`. -/
def ctEx : CampaignTarget :=
  { id := 1, campaign_id := 1, target_id := 1, status := .clicked,
    unique_token := "tok1", sent_at := none }

/-- A concrete campaign row. -/
def campEx : Campaign where
  id := 1
  name := "C"
  template_id := 1
  status := .active
  consent_verified := true
  started_at := none
  completed_at := none

/-- A concrete one-target store. -/
def dbEx : Db :=
  { campaigns := [campEx], templates := [], targets := [ctEx], events := [] }

/-- Status of the row with the given primary key. -/
def statusOfId (db : Db) (i : Nat) : Option TargetStatus :=
  (db.targets.find? (fun c => c.id == i)).map (·.status)

/-- C1: over any sequence of open/click/submit triggers the status of every
target only moves forward in the order pending < sent < opened < clicked <
submitted; an open trigger changes a status only from `sent` (to `opened`), a
click trigger only from `sent` or `opened` (to `clicked`), a submit trigger
on a resolved, un-rate-limited token leaves the target `submitted` whatever
its current status (given the submit-consistency the handlers maintain), and
in particular an open arriving after `clicked` leaves the status `clicked`. -/
theorem C1_forward_only (uaHash : String → String) (db : Db)
    (hnd : (db.targets.map CampaignTarget.id).Nodup) :
    (∀ ts : List Trigger, TargetAdvances db.targets (runTriggers uaHash db ts).targets) ∧
    (∀ token req redis,
      List.Forall₂ (fun a b => a.status = b.status ∨ (a.status = .sent ∧ b.status = .opened))
        db.targets (track_open db token req redis).2.targets) ∧
    (∀ token req redis,
      List.Forall₂
        (fun a b => a.status = b.status ∨
          ((a.status = .sent ∨ a.status = .opened) ∧ b.status = .clicked))
        db.targets (track_click db token req redis).2.targets) ∧
    (∀ token req redis ct, SubmitConsistent db → findTargetByToken db token = some ct →
      rate_limit_check ("submit_" ++ req.ip) 10 300 redis = true →
      ∀ ct' ∈ (track_submission uaHash db token req redis).2.targets,
        ct'.id = ct.id → ct'.status = .submitted) ∧
    (∀ token req redis,
      List.Forall₂ (fun a b => a.status = .clicked → b.status = .clicked)
        db.targets (track_open db token req redis).2.targets) := by
  have hopen : ∀ token req redis,
      List.Forall₂ (fun a b => a.status = b.status ∨ (a.status = .sent ∧ b.status = .opened))
        db.targets (track_open db token req redis).2.targets := by
    intro token req redis
    unfold track_open
    split
    · exact List.forall₂_same.mpr fun a _ => Or.inl rfl
    · cases hfind : findTargetByToken db token with
      | none => exact List.forall₂_same.mpr fun a _ => Or.inl rfl
      | some ct =>
        have hmem : ct ∈ db.targets := List.mem_of_find?_eq_some hfind
        simp only
        split
        · exact List.forall₂_same.mpr fun a _ => Or.inl rfl
        · split
          next hsent =>
            exact forall₂_map_update hnd hmem (Or.inr ⟨hsent, rfl⟩) (fun a => Or.inl rfl)
          next => exact List.forall₂_same.mpr fun a _ => Or.inl rfl
  refine ⟨fun ts => runTriggers_advances uaHash db ts hnd, hopen, ?_, ?_, ?_⟩
  · intro token req redis
    unfold track_click
    split
    · exact List.forall₂_same.mpr fun a _ => Or.inl rfl
    · cases hfind : findTargetByToken db token with
      | none => exact List.forall₂_same.mpr fun a _ => Or.inl rfl
      | some ct =>
        have hmem : ct ∈ db.targets := List.mem_of_find?_eq_some hfind
        have hdb' : List.Forall₂
            (fun a b => a.status = b.status ∨
              ((a.status = .sent ∨ a.status = .opened) ∧ b.status = .clicked))
            db.targets
            (if hasEvent db ct.id .clicked then db
             else
               let ev : EmailEvent :=
                 { campaign_target_id := ct.id, event_type := .clicked,
                   ip_address := some req.ip, user_agent := req.user_agent,
                   metadata := .engagement req.referer req.time }
               let db1 := addEvent db ev
               if ct.status = .sent ∨ ct.status = .opened then
                 updateTarget db1 ct.id (fun c => { c with status := .clicked })
               else db1).targets := by
          split
          · exact List.forall₂_same.mpr fun a _ => Or.inl rfl
          · split
            next hso =>
              exact forall₂_map_update hnd hmem (Or.inr ⟨hso, rfl⟩) (fun a => Or.inl rfl)
            next => exact List.forall₂_same.mpr fun a _ => Or.inl rfl
        simp only
        split <;> exact hdb'
  · intro token req redis ct hcons hfind hrl
    have hmem : ct ∈ db.targets := List.mem_of_find?_eq_some hfind
    unfold track_submission
    split
    next h429 => rw [hrl] at h429; simp at h429
    next =>
      simp only [hfind]
      split
      next hev =>
        intro ct' hct' hid
        have : ct' = ct := nodup_map_inj hnd hct' hmem hid
        subst this
        exact hcons ct' hct' hev
      next =>
        intro ct' hct' hid
        simp only [updateTarget, addEvent, List.mem_map] at hct'
        obtain ⟨a, _, rfl⟩ := hct'
        by_cases hida : a.id = ct.id
        · simp [hida]
        · simp only [beq_iff_eq, hida, if_false] at hid ⊢
  · intro token req redis
    refine (hopen token req redis).imp (fun a b h hc => ?_)
    rcases h with h | h
    · rw [← h]; exact hc
    · rw [h.1] at hc; cases hc

/-- C1 witness: on a one-target store whose target is already `clicked`, a
late open trigger leaves it `clicked` (never regressing), and a submit
trigger drives it to `submitted`. -/
theorem C1_forward_only_witness :
    TargetAdvances dbEx.targets
      (runTriggers (fun s => s) dbEx [.openT "tok1" req0 .unavailable]).targets ∧
    statusOfId (runTriggers (fun s => s) dbEx [.openT "tok1" req0 .unavailable]) 1
        = some .clicked ∧
    statusOfId (track_submission (fun s => s) dbEx "tok1" req0 .unavailable).2 1
        = some .submitted := by
  have h := C1_forward_only (fun s => s) dbEx (by simp [dbEx, ctEx])
  refine ⟨h.1 _, by rfl, ?_⟩
  have h4 := h.2.2.2.1 "tok1" req0 .unavailable ctEx
    (fun ct _ hev => absurd hev (by simp [hasEvent, dbEx])) rfl rfl
  have hfind : ((track_submission (fun s => s) dbEx "tok1" req0 .unavailable).2.targets.find?
      (fun c => c.id == 1)) = some { ctEx with status := .submitted } := rfl
  have hmem := List.mem_of_find?_eq_some hfind
  have hsub := h4 _ hmem rfl
  simp [statusOfId, hfind]

/-- Number of logged events of one type for one target. -/
def countEvents (db : Db) (ctid : Nat) (ty : EventType) : Nat :=
  (db.events.filter (fun e => e.campaign_target_id == ctid && e.event_type == ty)).length

lemma find?_token_map (l : List CampaignTarget) (token : String)
    (f : CampaignTarget → CampaignTarget)
    (hf : ∀ c, (f c).unique_token = c.unique_token) :
    (l.map f).find? (fun c => c.unique_token == token)
      = (l.find? (fun c => c.unique_token == token)).map f := by
  induction l with
  | nil => rfl
  | cons c cs ih =>
    simp only [List.map_cons, List.find?_cons, hf c]
    cases hc : (c.unique_token == token) <;> simp [ih]

lemma findTargetByToken_addEvent (db : Db) (e : EmailEvent) (token : String) :
    findTargetByToken (addEvent db e) token = findTargetByToken db token := rfl

lemma findTargetByToken_updateTarget (db : Db) (ctid : Nat)
    (f : CampaignTarget → CampaignTarget) (hf : ∀ c, (f c).unique_token = c.unique_token)
    (token : String) :
    findTargetByToken (updateTarget db ctid f) token
      = (findTargetByToken db token).map (fun c => if c.id == ctid then f c else c) := by
  unfold findTargetByToken updateTarget
  exact find?_token_map _ _ _ (fun c => by by_cases h : c.id = ctid <;> simp [h, hf])

lemma hasEvent_addEvent (db : Db) (e : EmailEvent) (ctid : Nat) (ty : EventType) :
    hasEvent (addEvent db e) ctid ty
      = (hasEvent db ctid ty || (e.campaign_target_id == ctid && e.event_type == ty)) := by
  simp [hasEvent, addEvent]

lemma hasEvent_updateTarget (db : Db) (i : Nat) (f : CampaignTarget → CampaignTarget)
    (ctid : Nat) (ty : EventType) :
    hasEvent (updateTarget db i f) ctid ty = hasEvent db ctid ty := rfl

lemma countEvents_addEvent (db : Db) (e : EmailEvent) (ctid : Nat) (ty : EventType) :
    countEvents (addEvent db e) ctid ty
      = countEvents db ctid ty
        + (if e.campaign_target_id == ctid && e.event_type == ty then 1 else 0) := by
  simp only [countEvents, addEvent, List.filter_append, List.length_append]
  cases h : (e.campaign_target_id == ctid && e.event_type == ty) <;> simp [List.filter, h]

lemma countEvents_updateTarget (db : Db) (i : Nat) (f : CampaignTarget → CampaignTarget)
    (ctid : Nat) (ty : EventType) :
    countEvents (updateTarget db i f) ctid ty = countEvents db ctid ty := rfl

lemma countEvents_eq_zero {db : Db} {ctid : Nat} {ty : EventType}
    (h : hasEvent db ctid ty = false) : countEvents db ctid ty = 0 := by
  simp only [hasEvent, List.any_eq_false] at h
  simp only [countEvents, List.length_eq_zero]
  exact List.filter_eq_nil.mpr h

lemma campaigns_addEvent (db : Db) (e : EmailEvent) : (addEvent db e).campaigns = db.campaigns :=
  rfl

lemma campaigns_updateTarget (db : Db) (i : Nat) (f : CampaignTarget → CampaignTarget) :
    (updateTarget db i f).campaigns = db.campaigns := rfl

lemma findCampaign_congr {db1 db2 : Db} (h : db1.campaigns = db2.campaigns) (cid : Nat) :
    findCampaign db1 cid = findCampaign db2 cid := by
  unfold findCampaign
  rw [h]

/-- What a trigger with a resolved token leaves behind: response is the
normal one, campaigns are untouched, the token still resolves to the same
row, and the trigger's event type is now logged. -/
lemma track_open_valid {db : Db} {token : String} {ct : CampaignTarget}
    (req : Request) (redis : RedisResult)
    (hrl : rate_limit_check ("open_" ++ req.ip) 30 60 redis = true)
    (hfind : findTargetByToken db token = some ct) :
    (track_open db token req redis).1 = .pixel ∧
    (track_open db token req redis).2.campaigns = db.campaigns ∧
    ∃ ct1, findTargetByToken (track_open db token req redis).2 token = some ct1 ∧
      ct1.id = ct.id ∧ ct1.campaign_id = ct.campaign_id ∧
      hasEvent (track_open db token req redis).2 ct1.id .opened = true := by
  unfold track_open
  rw [hrl]
  simp only [hfind, Bool.true_eq_false, if_false]
  split
  next hev => exact ⟨rfl, rfl, ct, hfind, rfl, rfl, hev⟩
  next hev =>
    simp only [Bool.not_eq_true] at hev
    split
    next hsent =>
      refine ⟨rfl, rfl, { ct with status := .opened }, ?_, rfl, rfl, ?_⟩
      · show findTargetByToken (updateTarget (addEvent db _) ct.id _) token = _
        rw [findTargetByToken_updateTarget]
        · rw [findTargetByToken_addEvent, hfind]
          simp
        · exact fun c => rfl
      · show hasEvent (updateTarget (addEvent db _) ct.id _) _ .opened = true
        rw [hasEvent_updateTarget, hasEvent_addEvent, hev]
        simp
    next =>
      refine ⟨rfl, rfl, ct, hfind, rfl, rfl, ?_⟩
      show hasEvent (addEvent db _) _ .opened = true
      rw [hasEvent_addEvent, hev]
      simp

lemma track_open_stable {db : Db} {token : String} {ct : CampaignTarget}
    (req : Request) (redis : RedisResult)
    (hrl : rate_limit_check ("open_" ++ req.ip) 30 60 redis = true)
    (hfind : findTargetByToken db token = some ct)
    (hev : hasEvent db ct.id .opened = true) :
    track_open db token req redis = (.pixel, db) := by
  unfold track_open
  rw [hrl]
  simp [hfind, hev]

lemma track_open_count {db : Db} {token : String} {ct : CampaignTarget}
    (req : Request) (redis : RedisResult)
    (hrl : rate_limit_check ("open_" ++ req.ip) 30 60 redis = true)
    (hfind : findTargetByToken db token = some ct)
    (hev : hasEvent db ct.id .opened = false) :
    countEvents (track_open db token req redis).2 ct.id .opened = 1 := by
  unfold track_open
  rw [hrl]
  simp only [hfind, Bool.true_eq_false, if_false]
  rw [if_neg (by simp [hev])]
  have hc0 : countEvents db ct.id .opened = 0 := countEvents_eq_zero hev
  split
  · rw [countEvents_updateTarget, countEvents_addEvent, hc0]
    simp
  · rw [countEvents_addEvent, hc0]
    simp

/-- The normal response of the click trigger: the training page for the
target's campaign, or the not-found page when the campaign row is gone. -/
def clickRespOf (db : Db) (cid : Nat) : TrackResponse :=
  match findCampaign db cid with
  | none => .errorPage 404
  | some c => .trainingPage c.id

lemma clickRespOf_congr {db1 db2 : Db} (h : db1.campaigns = db2.campaigns) (cid : Nat) :
    clickRespOf db1 cid = clickRespOf db2 cid := by
  unfold clickRespOf
  rw [findCampaign_congr h]

lemma clickWrap (db' : Db) (cid : Nat) :
    (match findCampaign db' cid with
     | none => ((.errorPage 404 : TrackResponse), db')
     | some c => ((.trainingPage c.id : TrackResponse), db'))
    = (clickRespOf db' cid, db') := by
  unfold clickRespOf
  cases findCampaign db' cid <;> rfl

lemma track_click_stable {db : Db} {token : String} {ct : CampaignTarget}
    (req : Request) (redis : RedisResult)
    (hrl : rate_limit_check ("click_" ++ req.ip) 20 60 redis = true)
    (hfind : findTargetByToken db token = some ct)
    (hev : hasEvent db ct.id .clicked = true) :
    track_click db token req redis = (clickRespOf db ct.campaign_id, db) := by
  unfold track_click
  rw [hrl]
  simp only [hfind, Bool.true_eq_false, if_false]
  rw [if_pos hev]
  exact clickWrap db ct.campaign_id

lemma track_click_valid {db : Db} {token : String} {ct : CampaignTarget}
    (req : Request) (redis : RedisResult)
    (hrl : rate_limit_check ("click_" ++ req.ip) 20 60 redis = true)
    (hfind : findTargetByToken db token = some ct) :
    (track_click db token req redis).1 = clickRespOf db ct.campaign_id ∧
    (track_click db token req redis).2.campaigns = db.campaigns ∧
    ∃ ct1, findTargetByToken (track_click db token req redis).2 token = some ct1 ∧
      ct1.id = ct.id ∧ ct1.campaign_id = ct.campaign_id ∧
      hasEvent (track_click db token req redis).2 ct1.id .clicked = true := by
  cases hev : hasEvent db ct.id .clicked with
  | true =>
    rw [track_click_stable req redis hrl hfind hev]
    exact ⟨rfl, rfl, ct, hfind, rfl, rfl, hev⟩
  | false =>
    unfold track_click
    rw [hrl]
    simp only [hfind, Bool.true_eq_false, if_false]
    rw [if_neg (by simp [hev])]
    by_cases hso : ct.status = .sent ∨ ct.status = .opened
    · rw [if_pos hso, clickWrap]
      refine ⟨clickRespOf_congr rfl ct.campaign_id, rfl,
        { ct with status := .clicked }, ?_, rfl, rfl, ?_⟩
      · show findTargetByToken (updateTarget (addEvent db _) ct.id _) token = _
        rw [findTargetByToken_updateTarget]
        · rw [findTargetByToken_addEvent, hfind]
          simp
        · exact fun c => rfl
      · show hasEvent (updateTarget (addEvent db _) ct.id _) _ .clicked = true
        rw [hasEvent_updateTarget, hasEvent_addEvent, hev]
        simp
    · rw [if_neg hso, clickWrap]
      refine ⟨clickRespOf_congr rfl ct.campaign_id, rfl, ct, hfind, rfl, rfl, ?_⟩
      show hasEvent (addEvent db _) _ .clicked = true
      rw [hasEvent_addEvent, hev]
      simp

lemma track_click_count {db : Db} {token : String} {ct : CampaignTarget}
    (req : Request) (redis : RedisResult)
    (hrl : rate_limit_check ("click_" ++ req.ip) 20 60 redis = true)
    (hfind : findTargetByToken db token = some ct)
    (hev : hasEvent db ct.id .clicked = false) :
    countEvents (track_click db token req redis).2 ct.id .clicked = 1 := by
  unfold track_click
  rw [hrl]
  simp only [hfind, Bool.true_eq_false, if_false]
  rw [if_neg (by simp [hev])]
  have hc0 : countEvents db ct.id .clicked = 0 := countEvents_eq_zero hev
  by_cases hso : ct.status = .sent ∨ ct.status = .opened
  · rw [if_pos hso, clickWrap]
    show countEvents (updateTarget (addEvent db _) ct.id _) _ .clicked = 1
    rw [countEvents_updateTarget, countEvents_addEvent, hc0]
    simp
  · rw [if_neg hso, clickWrap]
    show countEvents (addEvent db _) _ .clicked = 1
    rw [countEvents_addEvent, hc0]
    simp

lemma track_submission_stable {uaHash : String → String} {db : Db} {token : String}
    {ct : CampaignTarget} (req : Request) (redis : RedisResult)
    (hrl : rate_limit_check ("submit_" ++ req.ip) 10 300 redis = true)
    (hfind : findTargetByToken db token = some ct)
    (hev : hasEvent db ct.id .submitted = true) :
    track_submission uaHash db token req redis = (.submitAck, db) := by
  unfold track_submission
  rw [hrl]
  simp [hfind, hev]

lemma track_submission_valid {uaHash : String → String} {db : Db} {token : String}
    {ct : CampaignTarget} (req : Request) (redis : RedisResult)
    (hrl : rate_limit_check ("submit_" ++ req.ip) 10 300 redis = true)
    (hfind : findTargetByToken db token = some ct) :
    (track_submission uaHash db token req redis).1 = .submitAck ∧
    (track_submission uaHash db token req redis).2.campaigns = db.campaigns ∧
    ∃ ct1, findTargetByToken (track_submission uaHash db token req redis).2 token = some ct1 ∧
      ct1.id = ct.id ∧ ct1.campaign_id = ct.campaign_id ∧
      hasEvent (track_submission uaHash db token req redis).2 ct1.id .submitted = true := by
  cases hev : hasEvent db ct.id .submitted with
  | true =>
    rw [track_submission_stable req redis hrl hfind hev]
    exact ⟨rfl, rfl, ct, hfind, rfl, rfl, hev⟩
  | false =>
    unfold track_submission
    rw [hrl]
    simp only [hfind, Bool.true_eq_false, if_false]
    rw [if_neg (by simp [hev])]
    refine ⟨by trivial, by trivial, { ct with status := .submitted }, ?_, rfl, rfl, ?_⟩
    · show findTargetByToken (updateTarget (addEvent db _) ct.id _) token = _
      rw [findTargetByToken_updateTarget]
      · rw [findTargetByToken_addEvent, hfind]
        simp
      · exact fun c => rfl
    · show hasEvent (updateTarget (addEvent db _) ct.id _) _ .submitted = true
      rw [hasEvent_updateTarget, hasEvent_addEvent, hev]
      simp

lemma track_submission_count {uaHash : String → String} {db : Db} {token : String}
    {ct : CampaignTarget} (req : Request) (redis : RedisResult)
    (hrl : rate_limit_check ("submit_" ++ req.ip) 10 300 redis = true)
    (hfind : findTargetByToken db token = some ct)
    (hev : hasEvent db ct.id .submitted = false) :
    countEvents (track_submission uaHash db token req redis).2 ct.id .submitted = 1 := by
  unfold track_submission
  rw [hrl]
  simp only [hfind, Bool.true_eq_false, if_false]
  rw [if_neg (by simp [hev])]
  have hc0 : countEvents db ct.id .submitted = 0 := countEvents_eq_zero hev
  show countEvents (updateTarget (addEvent db _) ct.id _) _ .submitted = 1
  rw [countEvents_updateTarget, countEvents_addEvent, hc0]
  simp

/-- N successive open triggers on one token. -/
def repeatOpen (token : String) (reqs : Nat → Request) (redis : Nat → RedisResult) :
    Nat → Db → Db
  | 0, db => db
  | n + 1, db => (track_open (repeatOpen token reqs redis n db) token (reqs n) (redis n)).2

/-- N successive click triggers on one token. -/
def repeatClick (token : String) (reqs : Nat → Request) (redis : Nat → RedisResult) :
    Nat → Db → Db
  | 0, db => db
  | n + 1, db => (track_click (repeatClick token reqs redis n db) token (reqs n) (redis n)).2

/-- N successive submit triggers on one token. -/
def repeatSubmit (uaHash : String → String) (token : String) (reqs : Nat → Request)
    (redis : Nat → RedisResult) : Nat → Db → Db
  | 0, db => db
  | n + 1, db =>
    (track_submission uaHash (repeatSubmit uaHash token reqs redis n db) token
      (reqs n) (redis n)).2

lemma repeatOpen_stab {db : Db} {token : String} {ct : CampaignTarget}
    {reqs : Nat → Request} {redis : Nat → RedisResult}
    (hrl : ∀ i, rate_limit_check ("open_" ++ (reqs i).ip) 30 60 (redis i) = true)
    (hfind : findTargetByToken db token = some ct) :
    ∀ n, repeatOpen token reqs redis (n + 1) db = repeatOpen token reqs redis 1 db := by
  obtain ⟨-, -, ct1, hfind1, -, -, hev1⟩ := track_open_valid (reqs 0) (redis 0) (hrl 0) hfind
  have e1 : (track_open db token (reqs 0) (redis 0)).2 = repeatOpen token reqs redis 1 db := rfl
  rw [e1] at hfind1 hev1
  intro n
  induction n with
  | zero => rfl
  | succ n ih =>
    show (track_open (repeatOpen token reqs redis (n + 1) db) token
        (reqs (n + 1)) (redis (n + 1))).2 = _
    rw [ih, track_open_stable (reqs (n + 1)) (redis (n + 1)) (hrl (n + 1)) hfind1 hev1]

lemma repeatClick_stab {db : Db} {token : String} {ct : CampaignTarget}
    {reqs : Nat → Request} {redis : Nat → RedisResult}
    (hrl : ∀ i, rate_limit_check ("click_" ++ (reqs i).ip) 20 60 (redis i) = true)
    (hfind : findTargetByToken db token = some ct) :
    ∀ n, repeatClick token reqs redis (n + 1) db = repeatClick token reqs redis 1 db := by
  obtain ⟨-, -, ct1, hfind1, -, -, hev1⟩ := track_click_valid (reqs 0) (redis 0) (hrl 0) hfind
  have e1 : (track_click db token (reqs 0) (redis 0)).2 = repeatClick token reqs redis 1 db := rfl
  rw [e1] at hfind1 hev1
  intro n
  induction n with
  | zero => rfl
  | succ n ih =>
    show (track_click (repeatClick token reqs redis (n + 1) db) token
        (reqs (n + 1)) (redis (n + 1))).2 = _
    rw [ih, track_click_stable (reqs (n + 1)) (redis (n + 1)) (hrl (n + 1)) hfind1 hev1]

lemma repeatSubmit_stab {uaHash : String → String} {db : Db} {token : String}
    {ct : CampaignTarget} {reqs : Nat → Request} {redis : Nat → RedisResult}
    (hrl : ∀ i, rate_limit_check ("submit_" ++ (reqs i).ip) 10 300 (redis i) = true)
    (hfind : findTargetByToken db token = some ct) :
    ∀ n, repeatSubmit uaHash token reqs redis (n + 1) db
      = repeatSubmit uaHash token reqs redis 1 db := by
  obtain ⟨-, -, ct1, hfind1, -, -, hev1⟩ :=
    @track_submission_valid uaHash _ _ _ (reqs 0) (redis 0) (hrl 0) hfind
  have e1 : (track_submission uaHash db token (reqs 0) (redis 0)).2
      = repeatSubmit uaHash token reqs redis 1 db := rfl
  rw [e1] at hfind1 hev1
  intro n
  induction n with
  | zero => rfl
  | succ n ih =>
    show (track_submission uaHash (repeatSubmit uaHash token reqs redis (n + 1) db) token
        (reqs (n + 1)) (redis (n + 1))).2 = _
    rw [ih, track_submission_stable (reqs (n + 1)) (redis (n + 1)) (hrl (n + 1)) hfind1 hev1]

/-- C2: for a resolved token, N ≥ 1 triggers of one kind (all within rate
limits) leave the store exactly as a single trigger does, log exactly one
event of that kind when none existed before, and serve the normal response
at every repetition: the pixel for open, the training page (or its fixed
not-found fallback) for click, the acknowledgment for submit. -/
theorem C2_idempotent (uaHash : String → String) (db : Db) (token : String)
    (ct : CampaignTarget) (reqs : Nat → Request) (redis : Nat → RedisResult)
    (hfind : findTargetByToken db token = some ct)
    (hrlO : ∀ i, rate_limit_check ("open_" ++ (reqs i).ip) 30 60 (redis i) = true)
    (hrlC : ∀ i, rate_limit_check ("click_" ++ (reqs i).ip) 20 60 (redis i) = true)
    (hrlS : ∀ i, rate_limit_check ("submit_" ++ (reqs i).ip) 10 300 (redis i) = true)
    (N : Nat) (hN : 1 ≤ N) :
    (repeatOpen token reqs redis N db = repeatOpen token reqs redis 1 db ∧
      (hasEvent db ct.id .opened = false →
        countEvents (repeatOpen token reqs redis N db) ct.id .opened = 1) ∧
      ∀ n < N, (track_open (repeatOpen token reqs redis n db) token (reqs n) (redis n)).1
        = .pixel) ∧
    (repeatClick token reqs redis N db = repeatClick token reqs redis 1 db ∧
      (hasEvent db ct.id .clicked = false →
        countEvents (repeatClick token reqs redis N db) ct.id .clicked = 1) ∧
      ∀ n < N, (track_click (repeatClick token reqs redis n db) token (reqs n) (redis n)).1
        = clickRespOf db ct.campaign_id) ∧
    (repeatSubmit uaHash token reqs redis N db = repeatSubmit uaHash token reqs redis 1 db ∧
      (hasEvent db ct.id .submitted = false →
        countEvents (repeatSubmit uaHash token reqs redis N db) ct.id .submitted = 1) ∧
      ∀ n < N,
        (track_submission uaHash (repeatSubmit uaHash token reqs redis n db) token
          (reqs n) (redis n)).1 = .submitAck) := by
  obtain ⟨m, rfl⟩ : ∃ m, N = m + 1 := ⟨N - 1, (Nat.succ_pred_eq_of_pos hN).symm⟩
  refine ⟨⟨repeatOpen_stab hrlO hfind m, ?_, ?_⟩,
    ⟨repeatClick_stab hrlC hfind m, ?_, ?_⟩,
    ⟨repeatSubmit_stab hrlS hfind m, ?_, ?_⟩⟩
  · intro hev
    rw [repeatOpen_stab hrlO hfind m]
    exact track_open_count (reqs 0) (redis 0) (hrlO 0) hfind hev
  · intro n _
    cases n with
    | zero => exact (track_open_valid (reqs 0) (redis 0) (hrlO 0) hfind).1
    | succ n =>
      obtain ⟨-, -, ct1, hfind1, -, -, -⟩ := track_open_valid (reqs 0) (redis 0) (hrlO 0) hfind
      rw [repeatOpen_stab hrlO hfind n]
      exact (track_open_valid (reqs (n + 1)) (redis (n + 1)) (hrlO (n + 1)) hfind1).1
  · intro hev
    rw [repeatClick_stab hrlC hfind m]
    exact track_click_count (reqs 0) (redis 0) (hrlC 0) hfind hev
  · intro n _
    cases n with
    | zero => exact (track_click_valid (reqs 0) (redis 0) (hrlC 0) hfind).1
    | succ n =>
      obtain ⟨-, hcamp, ct1, hfind1, -, hcid, -⟩ :=
        track_click_valid (reqs 0) (redis 0) (hrlC 0) hfind
      have e1 : (track_click db token (reqs 0) (redis 0)).2
          = repeatClick token reqs redis 1 db := rfl
      rw [e1] at hcamp hfind1
      rw [repeatClick_stab hrlC hfind n]
      have h1 := (track_click_valid (reqs (n + 1)) (redis (n + 1)) (hrlC (n + 1)) hfind1).1
      rw [h1, hcid, clickRespOf_congr hcamp]
  · intro hev
    rw [repeatSubmit_stab hrlS hfind m]
    exact track_submission_count (reqs 0) (redis 0) (hrlS 0) hfind hev
  · intro n _
    cases n with
    | zero =>
      exact (@track_submission_valid uaHash _ _ _ (reqs 0) (redis 0) (hrlS 0) hfind).1
    | succ n =>
      obtain ⟨-, -, ct1, hfind1, -, -, -⟩ :=
        @track_submission_valid uaHash _ _ _ (reqs 0) (redis 0) (hrlS 0) hfind
      rw [repeatSubmit_stab hrlS hfind n]
      exact (@track_submission_valid uaHash _ _ _ (reqs (n + 1)) (redis (n + 1))
        (hrlS (n + 1)) hfind1).1

/-- C2 witness: three open triggers on the one-target store behave exactly
like one: single `opened` event, identical final state, pixel every time. -/
theorem C2_idempotent_witness :
    repeatOpen "tok1" (fun _ => req0) (fun _ => .unavailable) 3 dbEx
      = repeatOpen "tok1" (fun _ => req0) (fun _ => .unavailable) 1 dbEx ∧
    countEvents (repeatOpen "tok1" (fun _ => req0) (fun _ => .unavailable) 3 dbEx) 1 .opened
      = 1 ∧
    (track_open (repeatOpen "tok1" (fun _ => req0) (fun _ => .unavailable) 2 dbEx) "tok1"
      req0 .unavailable).1 = .pixel := by
  have h := C2_idempotent (fun s => s) dbEx "tok1" ctEx (fun _ => req0)
    (fun _ => .unavailable) rfl (fun _ => rfl) (fun _ => rfl) (fun _ => rfl) 3 (by omega)
  exact ⟨h.1.1, h.1.2.1 rfl, h.1.2.2 2 (by omega)⟩

/-- C4: a token that resolves to no `CampaignTarget` makes each of the three
tracking triggers answer its fixed not-found response and leave the store
untouched (no event appended, no status changed); the not-found response is a
constant, identical for every unknown token and every store, so it reveals
nothing about whether the token was ever valid for any campaign. -/
theorem C4_unknown_token (uaHash : String → String) (db : Db) (token : String)
    (req : Request) (r1 r2 r3 : RedisResult)
    (hfind : findTargetByToken db token = none)
    (h1 : rate_limit_check ("open_" ++ req.ip) 30 60 r1 = true)
    (h2 : rate_limit_check ("click_" ++ req.ip) 20 60 r2 = true)
    (h3 : rate_limit_check ("submit_" ++ req.ip) 10 300 r3 = true) :
    track_open db token req r1 = (.emptyBody 404, db) ∧
    track_click db token req r2 = (.errorPage 404, db) ∧
    track_submission uaHash db token req r3 = (.jsonError "Invalid token" 404, db) := by
  refine ⟨?_, ?_, ?_⟩
  · simp [track_open, h1, hfind]
  · simp [track_click, h2, hfind]
  · simp [track_submission, h3, hfind]

/-- C4 witness: evaluating the theorem on an empty store and the token
`"t"`, with the rate limiter in its always-allow fallback. -/
theorem C4_unknown_token_witness :
    track_open emptyDb "t" req0 .unavailable = (.emptyBody 404, emptyDb) ∧
    track_click emptyDb "t" req0 .unavailable = (.errorPage 404, emptyDb) ∧
    track_submission (fun s => s) emptyDb "t" req0 .unavailable
      = (.jsonError "Invalid token" 404, emptyDb) :=
  C4_unknown_token (fun s => s) emptyDb "t" req0 .unavailable .unavailable .unavailable
    (by decide) (by decide) (by decide) (by decide)

/-- The only event shape the submit trigger ever appends (tracking.py lines
144-155): received-data flag, timestamp, user-agent digest — no form field. -/
def submitEventOf (uaHash : String → String) (ctid : Nat) (req : Request) : EmailEvent :=
  { campaign_target_id := ctid
    event_type := .submitted
    ip_address := some req.ip
    user_agent := req.user_agent
    metadata := .submission true req.time (uaHash ((req.user_agent).getD "")) }

/-- C7: the stored submission record does not depend on the posted form
fields.  Two submit requests agreeing on client address, user-agent and
clock — but with arbitrary, different form payloads (and referers) — produce
identical responses and identical stores; and every event the submit trigger
ever adds carries only the received-data flag, the timestamp and the
user-agent digest in its metadata, never a form value. -/
theorem C7_no_credential_storage (uaHash : String → String) (db : Db) (token : String)
    (req1 req2 : Request) (redis : RedisResult)
    (hip : req1.ip = req2.ip) (hua : req1.user_agent = req2.user_agent)
    (ht : req1.time = req2.time) :
    track_submission uaHash db token req1 redis = track_submission uaHash db token req2 redis ∧
    ∀ e ∈ (track_submission uaHash db token req1 redis).2.events,
      e ∈ db.events ∨ ∃ ctid, e = submitEventOf uaHash ctid req1 := by
  constructor
  · cases req1 with
    | mk ip1 ua1 ref1 fd1 t1 =>
      cases req2 with
      | mk ip2 ua2 ref2 fd2 t2 =>
        simp only at hip hua ht
        subst hip; subst hua; subst ht
        rfl
  · intro e he
    unfold track_submission at he
    split at he
    · exact Or.inl he
    · split at he
      · exact Or.inl he
      next ct _ =>
        split at he
        · exact Or.inl he
        · simp only [updateTarget, addEvent, List.mem_append, List.mem_singleton] at he
          rcases he with he | he
          · exact Or.inl he
          · exact Or.inr ⟨ct.id, he⟩

/-- Two concrete submit requests that differ only in the posted form
payload: one carries credentials, the other nothing. -/
def reqWithCreds : Request :=
  { req0 with form_data := [("username", "alice"), ("password", "hunter2")] }

/-- C7 witness: posting credentials and posting nothing produce the very
same response and the very same stored state. -/
theorem C7_no_credential_storage_witness :
    track_submission (fun s => s) dbEx "tok1" reqWithCreds .unavailable
      = track_submission (fun s => s) dbEx "tok1" req0 .unavailable :=
  (C7_no_credential_storage (fun s => s) dbEx "tok1" reqWithCreds req0 .unavailable
    rfl rfl rfl).1

/-- A response that signals rate limiting: the empty 429 of open/click or
the JSON 429 of submit. -/
def isRateLimitedResp (r : TrackResponse) : Prop :=
  r = .emptyBody 429 ∨ r = .jsonError "Too many submissions" 429

lemma clickRespOf_not_rl (db : Db) (cid : Nat) : ¬ isRateLimitedResp (clickRespOf db cid) := by
  unfold clickRespOf
  cases findCampaign db cid <;> simp [isRateLimitedResp]

/-- C10: when the Redis client raises (store unreachable, import failure,
any exception), `rate_limit_check` returns `True` for every identifier,
limit and window, so no tracking trigger is ever answered with a 429; the
per-trigger budgets (open 30/60s, click 20/60s, submit 10/300s) reject
requests only when the shared counter is actually readable and has reached
the limit. -/
theorem C10_redis_fallback :
    (∀ identifier limit window,
      rate_limit_check identifier limit window .unavailable = true) ∧
    (∀ db token req, ¬ isRateLimitedResp (track_open db token req .unavailable).1) ∧
    (∀ db token req, ¬ isRateLimitedResp (track_click db token req .unavailable).1) ∧
    (∀ uaHash db token req,
      ¬ isRateLimitedResp (track_submission uaHash db token req .unavailable).1) ∧
    (∀ identifier limit window c,
      rate_limit_check identifier limit window (.avail (some c)) = false ↔ limit ≤ c) ∧
    (∀ identifier limit window,
      rate_limit_check identifier limit window (.avail none) = true) ∧
    (∀ db token req c, 30 ≤ c →
      (track_open db token req (.avail (some c))).1 = .emptyBody 429) ∧
    (∀ db token req c, 20 ≤ c →
      (track_click db token req (.avail (some c))).1 = .emptyBody 429) ∧
    (∀ uaHash db token req c, 10 ≤ c →
      (track_submission uaHash db token req (.avail (some c))).1
        = .jsonError "Too many submissions" 429) := by
  refine ⟨fun _ _ _ => rfl, ?_, ?_, ?_, ?_, fun _ _ _ => rfl, ?_, ?_, ?_⟩
  · intro db token req
    unfold track_open
    simp only [show rate_limit_check ("open_" ++ req.ip) 30 60 .unavailable = true from rfl,
      Bool.true_eq_false, if_false]
    cases hfind : findTargetByToken db token with
    | none => simp [isRateLimitedResp]
    | some ct =>
      simp only [hfind]
      split <;> simp [isRateLimitedResp]
  · intro db token req
    unfold track_click
    simp only [show rate_limit_check ("click_" ++ req.ip) 20 60 .unavailable = true from rfl,
      Bool.true_eq_false, if_false]
    cases hfind : findTargetByToken db token with
    | none => simp [isRateLimitedResp]
    | some ct =>
      simp only [hfind, clickWrap]
      exact clickRespOf_not_rl _ _
  · intro uaHash db token req
    unfold track_submission
    simp only [show rate_limit_check ("submit_" ++ req.ip) 10 300 .unavailable = true from rfl,
      Bool.true_eq_false, if_false]
    cases hfind : findTargetByToken db token with
    | none => simp [isRateLimitedResp]
    | some ct =>
      simp only [hfind]
      simp [isRateLimitedResp]
  · intro identifier limit window c
    unfold rate_limit_check
    by_cases h : limit ≤ c <;> simp [h]
  · intro db token req c hc
    unfold track_open
    simp [rate_limit_check, hc]
  · intro db token req c hc
    unfold track_click
    simp [rate_limit_check, hc]
  · intro uaHash db token req c hc
    unfold track_submission
    simp [rate_limit_check, hc]

/-- C10 witness: with the counter at the open budget the open trigger is
rejected, while with the store unreachable the same situation is allowed. -/
theorem C10_redis_fallback_witness :
    (track_open emptyDb "t" req0 (.avail (some 30))).1 = .emptyBody 429 ∧
    rate_limit_check "open_10.0.0.1" 30 60 .unavailable = true ∧
    ¬ isRateLimitedResp (track_open emptyDb "t" req0 .unavailable).1 := by
  refine ⟨C10_redis_fallback.2.2.2.2.2.2.1 emptyDb "t" req0 30 (by omega),
    C10_redis_fallback.1 "open_10.0.0.1" 30 60,
    C10_redis_fallback.2.1 emptyDb "t" req0⟩

/-- `round(n/d * 100, 2)` expressed in hundredths of a percent: the Python
float rate is idealized as the exact rational `n/d·100`, and the rounded
two-decimal result `x` is represented by the integer `100·x` (so `33.33` is
`3333`).  Python `round` is round-half-to-even; `n/d·100` rounded to two
decimals in hundredths is the half-even rounding of `n·10000/d`. -/
def roundRateX100 (n d : Nat) : Nat :=
  let t := n * 10000
  let q := t / d
  let r := t % d
  if 2 * r < d then q
  else if d < 2 * r then q + 1
  else if q % 2 = 0 then q else q + 1

/-- The metrics dict built by `calculate_campaign_metrics`; rate fields are
in hundredths of a percent (`delivery_rate = 10000` means 100.00). -/
structure Metrics where
  total_targets : Nat
  emails_sent : Nat
  unique_opens : Nat
  unique_clicks : Nat
  unique_submissions : Nat
  open_rate_x100 : Nat
  click_rate_x100 : Nat
  submission_rate_x100 : Nat
  delivery_rate_x100 : Nat
deriving DecidableEq, Repr

/-- `EmailEvent.query.join(CampaignTarget).filter(CampaignTarget.campaign_id
== cid, EmailEvent.event_type == ty)`. -/
def eventsJoined (db : Db) (cid : Nat) (ty : EventType) : List EmailEvent :=
  db.events.filter (fun e => e.event_type == ty &&
    db.targets.any (fun ct => ct.id == e.campaign_target_id && ct.campaign_id == cid))

/-- `.distinct(EmailEvent.campaign_target_id).count()`: the number of
distinct targets of the campaign holding an event of the type. -/
def distinctTargetCount (db : Db) (cid : Nat) (ty : EventType) : Nat :=
  ((eventsJoined db cid ty).map (·.campaign_target_id)).dedup.length

/-- `calculate_campaign_metrics` (helpers.py lines 31-81): `None` for a
missing campaign, otherwise counts and the four funnel rates, each rounded
to two decimals (kept in hundredths here); the `sent` count is a plain event
count, the open/click/submit counts are distinct-target counts. -/
def calculate_campaign_metrics (db : Db) (cid : Nat) : Option Metrics :=
  match findCampaign db cid with
  | none => none
  | some _ =>
    let total_targets := (db.targets.filter (fun ct => ct.campaign_id == cid)).length
    let sent_events := (eventsJoined db cid .sent).length
    let open_events := distinctTargetCount db cid .opened
    let click_events := distinctTargetCount db cid .clicked
    let submit_events := distinctTargetCount db cid .submitted
    some
      { total_targets := total_targets
        emails_sent := sent_events
        unique_opens := open_events
        unique_clicks := click_events
        unique_submissions := submit_events
        open_rate_x100 := if 0 < sent_events then roundRateX100 open_events sent_events else 0
        click_rate_x100 := if 0 < open_events then roundRateX100 click_events open_events else 0
        submission_rate_x100 :=
          if 0 < click_events then roundRateX100 submit_events click_events else 0
        delivery_rate_x100 :=
          if 0 < total_targets then roundRateX100 sent_events total_targets else 0 }

/-- The rate formula exactly as §4.5 of the spec states it: numerator over
denominator times 100, 0 when the denominator is 0, rounded to 2 decimals
(in hundredths). -/
def spec_rate_x100 (num den : Nat) : Nat :=
  if den = 0 then 0 else roundRateX100 num den

lemma rate_if_eq_spec (n d : Nat) :
    (if 0 < d then roundRateX100 n d else 0) = spec_rate_x100 n d := by
  unfold spec_rate_x100
  rcases Nat.eq_zero_or_pos d with hz | hp
  · simp [hz]
  · simp [hp, Nat.pos_iff_ne_zero.mp hp]

/-- A target of the worked metrics example. -/
def mkCtM (i : Nat) : CampaignTarget :=
  { id := i, campaign_id := 1, target_id := i, status := .sent,
    unique_token := "t" ++ toString i, sent_at := none }

/-- An event of the worked metrics example. -/
def mkEvM (ctid : Nat) (ty : EventType) : EmailEvent :=
  { campaign_target_id := ctid, event_type := ty, ip_address := none,
    user_agent := none, metadata := .engagement none 0 }

/-- The worked funnel of §8: 10 targets, 10 sent, 6 distinct opens, 3
distinct clicks, 1 distinct submit. -/
def dbMetricsEx : Db :=
  { campaigns := [{ campEx with id := 1 }]
    templates := []
    targets := (List.range 10).map (fun i => mkCtM (i + 1))
    events :=
      (List.range 10).map (fun i => mkEvM (i + 1) .sent)
        ++ (List.range 6).map (fun i => mkEvM (i + 1) .opened)
        ++ (List.range 3).map (fun i => mkEvM (i + 1) .clicked)
        ++ [mkEvM 1 .submitted] }

/-- The metrics the example must produce: delivery 100.00, open 60.00,
click 50.00, submission 33.33. -/
def metricsEx : Metrics :=
  { total_targets := 10, emails_sent := 10, unique_opens := 6, unique_clicks := 3,
    unique_submissions := 1, open_rate_x100 := 6000, click_rate_x100 := 5000,
    submission_rate_x100 := 3333, delivery_rate_x100 := 10000 }

/-- C3: whenever the metrics engine returns a dict, its four rates are
exactly the §4.5 formulas over its own counts — each stage divided by its
predecessor stage, 0 on a zero denominator, rounded to two decimals — with
opens/clicks/submits counted as distinct targets; on the worked funnel
(10 sent over 10 targets, 6 opens, 3 clicks, 1 submit) this yields
delivery 100.00, open 60.00, click 50.00, submission 33.33. -/
theorem C3_metrics (db : Db) (cid : Nat) (m : Metrics)
    (h : calculate_campaign_metrics db cid = some m) :
    m.delivery_rate_x100 = spec_rate_x100 m.emails_sent m.total_targets ∧
    m.open_rate_x100 = spec_rate_x100 m.unique_opens m.emails_sent ∧
    m.click_rate_x100 = spec_rate_x100 m.unique_clicks m.unique_opens ∧
    m.submission_rate_x100 = spec_rate_x100 m.unique_submissions m.unique_clicks ∧
    m.unique_opens = distinctTargetCount db cid .opened ∧
    m.unique_clicks = distinctTargetCount db cid .clicked ∧
    m.unique_submissions = distinctTargetCount db cid .submitted ∧
    calculate_campaign_metrics dbMetricsEx 1 = some metricsEx := by
  unfold calculate_campaign_metrics at h
  rcases hfc : findCampaign db cid with _ | c
  · rw [hfc] at h; cases h
  · rw [hfc] at h
    simp only [Option.some_inj] at h
    subst h
    exact ⟨rate_if_eq_spec _ _, rate_if_eq_spec _ _, rate_if_eq_spec _ _,
      rate_if_eq_spec _ _, rfl, rfl, rfl, by decide⟩

/-- C3 witness: the theorem applied to the worked funnel example. -/
theorem C3_metrics_witness :
    metricsEx.submission_rate_x100 = spec_rate_x100 1 3 ∧
    metricsEx.open_rate_x100 = spec_rate_x100 6 10 ∧
    calculate_campaign_metrics dbMetricsEx 1 = some metricsEx := by
  have h := C3_metrics dbMetricsEx 1 metricsEx (by decide)
  exact ⟨h.2.2.2.1, h.2.1, h.2.2.2.2.2.2.2⟩
/-- The application configuration bits the campaign-send route reads
(config.py line 25). -/
structure AppConfig where
  campaign_consent_required : Bool
deriving DecidableEq, Repr

/-- Outcome of `send_campaign` (campaigns.py lines 145-194).  The
permission/authentication layer is an excluded collaborator and is not
modelled; each rejection constructor carries the distinct flash message of
its branch. -/
inductive SendCampaignResult
  | notFound
  | rejectedNotDraft
  | rejectedNoTargets
  | rejectedConsent
  | queued
deriving DecidableEq, Repr

/-- Number of CampaignTargets of the campaign, any status (campaigns.py
line 162: `CampaignTarget.query.filter_by(campaign_id=id).count()`). -/
def targetCount (db : Db) (cid : Nat) : Nat :=
  (db.targets.filter (fun ct => ct.campaign_id == cid)).length

/-- Number of still-pending CampaignTargets of the campaign. -/
def pendingCount (db : Db) (cid : Nat) : Nat :=
  (db.targets.filter (fun ct => ct.campaign_id == cid && ct.status == .pending)).length

/-- `send_campaign` (campaigns.py lines 145-194): reject unless the campaign
is `draft`, has at least one target (of any status — not specifically a
pending one), and consent is verified when the configuration requires it;
otherwise enqueue the background dispatch and mark the campaign `active`. -/
def send_campaign (db : Db) (cid : Nat) (cfg : AppConfig) (now : Nat) :
    SendCampaignResult × Db :=
  match findCampaign db cid with
  | none => (.notFound, db)
  | some campaign =>
    if campaign.status ≠ .draft then (.rejectedNotDraft, db)
    else if targetCount db cid = 0 then (.rejectedNoTargets, db)
    else if cfg.campaign_consent_required && !campaign.consent_verified then
      (.rejectedConsent, db)
    else
      (.queued,
        updateCampaign db cid (fun c => { c with status := .active, started_at := some now }))

/-- A draft campaign with consent verified whose single target has already
submitted (possible: the tracking routes resolve tokens regardless of
campaign status, and submit advances from any status), so zero targets are
pending while one target exists. -/
def dbC6 : Db :=
  { campaigns := [{ campEx with status := .draft }]
    templates := []
    targets := [{ ctEx with status := .submitted }]
    events := [] }

/-- C6 counterexample: the claim says invoking send is rejected without side
effects whenever no pending target exists; on `dbC6` no target is pending,
yet the code enqueues the dispatch and sets the campaign `active`
(`started_at` included) — it only checks that the count of targets of any
status is non-zero. -/
theorem C6_preconditions_counterexample :
    pendingCount dbC6 1 = 0 ∧
    (send_campaign dbC6 1 ⟨true⟩ 5).1 = .queued ∧
    findCampaign (send_campaign dbC6 1 ⟨true⟩ 5).2 1
      = some { campEx with status := .active, started_at := some 5 } := by
  exact ⟨rfl, rfl, rfl⟩

/-- C6 amended: send is rejected, with the specific failed condition and
with the store returned untouched, whenever the campaign is not `draft`, or
it has no associated target of any status, or consent verification is
required and missing — checked in that order; when all three hold the
dispatch is enqueued and the campaign becomes `active` with `started_at`
set, targets and events untouched. -/
theorem C6_preconditions (db : Db) (cid : Nat) (cfg : AppConfig) (now : Nat)
    (campaign : Campaign) (hfc : findCampaign db cid = some campaign) :
    (campaign.status ≠ .draft →
      send_campaign db cid cfg now = (.rejectedNotDraft, db)) ∧
    (campaign.status = .draft → targetCount db cid = 0 →
      send_campaign db cid cfg now = (.rejectedNoTargets, db)) ∧
    (campaign.status = .draft → targetCount db cid ≠ 0 →
      cfg.campaign_consent_required = true → campaign.consent_verified = false →
      send_campaign db cid cfg now = (.rejectedConsent, db)) ∧
    (campaign.status = .draft → targetCount db cid ≠ 0 →
      (cfg.campaign_consent_required = false ∨ campaign.consent_verified = true) →
      (send_campaign db cid cfg now).1 = .queued ∧
      (send_campaign db cid cfg now).2.targets = db.targets ∧
      (send_campaign db cid cfg now).2.events = db.events ∧
      ∀ c' ∈ (send_campaign db cid cfg now).2.campaigns, c'.id = cid →
        c'.status = .active ∧ c'.started_at = some now) ∧
    ((send_campaign db cid cfg now).1 ≠ .queued → (send_campaign db cid cfg now).2 = db) := by
  unfold send_campaign
  rw [hfc]
  refine ⟨?_, ?_, ?_, ?_, ?_⟩
  · intro h
    simp [h]
  · intro h1 h2
    simp [h1, h2]
  · intro h1 h2 h3 h4
    simp [h1, h2, h3, h4]
  · intro h1 h2 h3
    have hcons : (cfg.campaign_consent_required && !campaign.consent_verified) = false := by
      rcases h3 with h | h <;> simp [h]
    simp only [h1, ne_eq, not_true_eq_false, if_false, h2, hcons,
      Bool.false_eq_true, if_neg]
    refine ⟨by trivial, by trivial, by trivial, ?_⟩
    intro c' hc' hid
    simp only [updateCampaign, List.mem_map] at hc'
    obtain ⟨a, _, rfl⟩ := hc'
    by_cases hida : a.id = cid
    · simp [hida]
    · simp only [beq_iff_eq, hida, if_false] at hid ⊢
  · intro h
    by_cases h1 : campaign.status = .draft
    · by_cases h2 : targetCount db cid = 0
      · simp [h1, h2]
      · by_cases h3 : (cfg.campaign_consent_required && !campaign.consent_verified) = true
        · simp [h1, h2, h3]
        · exfalso
          apply h
          simp [h1, h2, h3]
    · simp [h1]

/-- C6 amended witness: a non-draft campaign is rejected with no store
change, and on `dbC6` (draft, one non-pending target, consent given) the
send is enqueued and the campaign activated. -/
theorem C6_preconditions_witness :
    send_campaign dbEx 1 ⟨true⟩ 5 = (.rejectedNotDraft, dbEx) ∧
    (send_campaign dbC6 1 ⟨true⟩ 5).1 = .queued := by
  constructor
  · exact (C6_preconditions dbEx 1 ⟨true⟩ 5 campEx rfl).1 (by decide)
  · exact ((C6_preconditions dbC6 1 ⟨true⟩ 5 { campEx with status := .draft } rfl).2.2.2.1
      rfl (by decide) (Or.inr rfl)).1

/-- Outcome of processing one pending target inside the dispatcher loop
(email_service.py lines 45-69): the mail capability succeeded, it reported
failure (`send_email_to_target` returned `False` — its internal exceptions
are swallowed and surface as `False` too), or an exception escaped the loop
body and was caught by the per-target `except` handler. -/
inductive SendOutcome
  | success
  | failure
  | exceptionMsg (msg : String)
deriving DecidableEq, Repr

/-- `EmailSender.log_sent_event` (email_service.py lines 225-238). -/
def sentEventOf (ctid : Nat) (now : Nat) (cname tname : String) : EmailEvent :=
  { campaign_target_id := ctid
    event_type := .sent
    ip_address := some "127.0.0.1"
    user_agent := none
    metadata := .sentInfo now cname tname }

/-- `EmailSender.log_error_event` (email_service.py lines 240-251). -/
def bouncedEventOf (ctid : Nat) (msg : String) (now : Nat) : EmailEvent :=
  { campaign_target_id := ctid
    event_type := .bounced
    ip_address := none
    user_agent := none
    metadata := .bounce msg now }

/-- One iteration of the dispatcher loop (email_service.py lines 45-69):
success appends the `sent` event and advances the row to `sent` with
`sent_at`; a reported failure only counts an error; an escaped exception
counts an error and appends a `bounced` event.  The in-loop `check_rate_limit`
sleep has no state effect and is not modelled. -/
def dispatchStep (outcome : Nat → SendOutcome) (now : Nat) (cname tname : String)
    (acc : Db × Nat × Nat) (ct : CampaignTarget) : Db × Nat × Nat :=
  match outcome ct.id with
  | .success =>
    let db1 := addEvent acc.1 (sentEventOf ct.id now cname tname)
    (updateTarget db1 ct.id (fun c => { c with status := .sent, sent_at := some now }),
      acc.2.1 + 1, acc.2.2)
  | .failure => (acc.1, acc.2.1, acc.2.2 + 1)
  | .exceptionMsg m => (addEvent acc.1 (bouncedEventOf ct.id m now), acc.2.1, acc.2.2 + 1)

/-- `EmailSender.send_campaign_emails` (email_service.py lines 26-95):
snapshot the pending targets, process each one, and when every snapshot
entry was counted and no target of the campaign is still pending, complete
the campaign.  Returns the final store and the success/error counters. -/
def send_campaign_emails (db : Db) (cid : Nat) (outcome : Nat → SendOutcome)
    (now : Nat) : Db × Nat × Nat :=
  match findCampaign db cid with
  | none => (db, 0, 0)
  | some campaign =>
    let cname := campaign.name
    let tname := ((findTemplate db campaign.template_id).map Template.name).getD ""
    let pend := db.targets.filter (fun ct => ct.campaign_id == cid && ct.status == .pending)
    let res := pend.foldl (dispatchStep outcome now cname tname) (db, 0, 0)
    if res.2.1 + res.2.2 = pend.length then
      if pendingCount res.1 cid = 0 then
        (updateCampaign res.1 cid
          (fun c => { c with status := .completed, completed_at := some now }),
          res.2.1, res.2.2)
      else res
    else res

/-- The row with the given primary key. -/
def rowOfId (db : Db) (i : Nat) : Option CampaignTarget :=
  db.targets.find? (fun c => c.id == i)

lemma rowOfId_congr {db1 db2 : Db} (h : db1.targets = db2.targets) (i : Nat) :
    rowOfId db1 i = rowOfId db2 i := by
  unfold rowOfId
  rw [h]

lemma find?_id_map (l : List CampaignTarget) (i : Nat)
    (f : CampaignTarget → CampaignTarget) (hf : ∀ c, (f c).id = c.id) :
    (l.map f).find? (fun c => c.id == i) = (l.find? (fun c => c.id == i)).map f := by
  induction l with
  | nil => rfl
  | cons c cs ih =>
    simp only [List.map_cons, List.find?_cons, hf c]
    cases hc : (c.id == i) <;> simp [ih]

lemma rowOfId_addEvent (db : Db) (e : EmailEvent) (i : Nat) :
    rowOfId (addEvent db e) i = rowOfId db i := rfl

lemma rowOfId_updateTarget (db : Db) (j : Nat) (f : CampaignTarget → CampaignTarget)
    (hf : ∀ c, (f c).id = c.id) (i : Nat) :
    rowOfId (updateTarget db j f) i
      = (rowOfId db i).map (fun c => if c.id == j then f c else c) := by
  unfold rowOfId updateTarget
  exact find?_id_map _ _ _ (fun c => by by_cases h : c.id = j <;> simp [h, hf])

lemma find?_id_of_nodup {l : List CampaignTarget} {ct : CampaignTarget}
    (hnd : (l.map CampaignTarget.id).Nodup) (hmem : ct ∈ l) :
    l.find? (fun c => c.id == ct.id) = some ct := by
  induction l with
  | nil => cases hmem
  | cons c cs ih =>
    rw [List.map_cons, List.nodup_cons] at hnd
    rcases List.mem_cons.mp hmem with rfl | hmem'
    · rw [List.find?_cons_of_pos _ (by simp)]
    · have hne : c.id ≠ ct.id := by
        intro he
        exact hnd.1 (he ▸ List.mem_map_of_mem CampaignTarget.id hmem')
      rw [List.find?_cons_of_neg _ (by simp [hne])]
      exact ih hnd.2 hmem'

lemma dispatchStep_counts (o : Nat → SendOutcome) (now : Nat) (cn tn : String)
    (acc : Db × Nat × Nat) (ct : CampaignTarget) :
    (dispatchStep o now cn tn acc ct).2.1 + (dispatchStep o now cn tn acc ct).2.2
      = acc.2.1 + acc.2.2 + 1 := by
  unfold dispatchStep
  cases o ct.id <;> simp <;> omega

lemma dispatchFold_counts (o : Nat → SendOutcome) (now : Nat) (cn tn : String)
    (l : List CampaignTarget) (acc : Db × Nat × Nat) :
    (l.foldl (dispatchStep o now cn tn) acc).2.1
        + (l.foldl (dispatchStep o now cn tn) acc).2.2
      = acc.2.1 + acc.2.2 + l.length := by
  induction l generalizing acc with
  | nil => simp
  | cons c cs ih =>
    rw [List.foldl_cons, ih, dispatchStep_counts]
    simp only [List.length_cons]
    omega

lemma dispatchStep_events_mono (o : Nat → SendOutcome) (now : Nat) (cn tn : String)
    (acc : Db × Nat × Nat) (ct : CampaignTarget) :
    ∃ ex, (dispatchStep o now cn tn acc ct).1.events = acc.1.events ++ ex := by
  unfold dispatchStep
  cases o ct.id with
  | success => exact ⟨[sentEventOf ct.id now cn tn], rfl⟩
  | failure => exact ⟨[], by simp⟩
  | exceptionMsg m => exact ⟨[bouncedEventOf ct.id m now], rfl⟩

lemma dispatchFold_events_mono (o : Nat → SendOutcome) (now : Nat) (cn tn : String)
    (l : List CampaignTarget) (acc : Db × Nat × Nat) :
    ∃ ex, (l.foldl (dispatchStep o now cn tn) acc).1.events = acc.1.events ++ ex := by
  induction l generalizing acc with
  | nil => exact ⟨[], by simp⟩
  | cons c cs ih =>
    obtain ⟨ex1, h1⟩ := dispatchStep_events_mono o now cn tn acc c
    obtain ⟨ex2, h2⟩ := ih (dispatchStep o now cn tn acc c)
    exact ⟨ex1 ++ ex2, by rw [List.foldl_cons, h2, h1, List.append_assoc]⟩

lemma dispatchStep_events_filter (o : Nat → SendOutcome) (now : Nat) (cn tn : String)
    (acc : Db × Nat × Nat) (ct : CampaignTarget) (i : Nat) (hne : ct.id ≠ i) :
    (dispatchStep o now cn tn acc ct).1.events.filter (fun e => e.campaign_target_id == i)
      = acc.1.events.filter (fun e => e.campaign_target_id == i) := by
  unfold dispatchStep
  cases o ct.id with
  | success => simp [addEvent, updateTarget, List.filter_append, sentEventOf, hne]
  | failure => rfl
  | exceptionMsg m => simp [addEvent, List.filter_append, bouncedEventOf, hne]

lemma dispatchFold_events_filter (o : Nat → SendOutcome) (now : Nat) (cn tn : String)
    (l : List CampaignTarget) (acc : Db × Nat × Nat) (i : Nat)
    (h : ∀ ct ∈ l, ct.id ≠ i) :
    (l.foldl (dispatchStep o now cn tn) acc).1.events.filter
        (fun e => e.campaign_target_id == i)
      = acc.1.events.filter (fun e => e.campaign_target_id == i) := by
  induction l generalizing acc with
  | nil => rfl
  | cons c cs ih =>
    rw [List.foldl_cons, ih _ (fun ct hct => h ct (List.mem_cons_of_mem c hct)),
      dispatchStep_events_filter o now cn tn acc c i (h c (List.mem_cons_self c cs))]

lemma dispatchStep_row_ne (o : Nat → SendOutcome) (now : Nat) (cn tn : String)
    (acc : Db × Nat × Nat) (ct : CampaignTarget) (i : Nat) (hne : ct.id ≠ i) :
    rowOfId (dispatchStep o now cn tn acc ct).1 i = rowOfId acc.1 i := by
  unfold dispatchStep
  cases o ct.id with
  | success =>
    show rowOfId (updateTarget (addEvent acc.1 _) ct.id _) i = _
    rw [rowOfId_updateTarget]
    · rw [rowOfId_addEvent]
      rcases hr : rowOfId acc.1 i with _ | c0
      · rfl
      · have hc0 : c0.id = i := by
          have := List.find?_some hr
          simpa using this
        simp [hc0, Ne.symm hne]
    · exact fun c => rfl
  | failure => rfl
  | exceptionMsg m => rfl

lemma dispatchFold_row_ne (o : Nat → SendOutcome) (now : Nat) (cn tn : String)
    (l : List CampaignTarget) (acc : Db × Nat × Nat) (i : Nat)
    (h : ∀ ct ∈ l, ct.id ≠ i) :
    rowOfId (l.foldl (dispatchStep o now cn tn) acc).1 i = rowOfId acc.1 i := by
  induction l generalizing acc with
  | nil => rfl
  | cons c cs ih =>
    rw [List.foldl_cons, ih _ (fun ct hct => h ct (List.mem_cons_of_mem c hct)),
      dispatchStep_row_ne o now cn tn acc c i (h c (List.mem_cons_self c cs))]

lemma dispatchStep_row_success (o : Nat → SendOutcome) (now : Nat) (cn tn : String)
    (acc : Db × Nat × Nat) (ct c0 : CampaignTarget)
    (houtc : o ct.id = .success) (hrow : rowOfId acc.1 ct.id = some c0) :
    rowOfId (dispatchStep o now cn tn acc ct).1 ct.id
      = some { c0 with status := .sent, sent_at := some now } := by
  unfold dispatchStep
  rw [houtc]
  show rowOfId (updateTarget (addEvent acc.1 _) ct.id _) ct.id = _
  rw [rowOfId_updateTarget]
  · rw [rowOfId_addEvent, hrow]
    have hc0 : c0.id = ct.id := by
      have := List.find?_some hrow
      simpa using this
    simp [hc0]
  · exact fun c => rfl

/-- The dispatcher's fold over the pending snapshot, named for the proofs. -/
def dispatchFoldRes (db : Db) (cid : Nat) (outcome : Nat → SendOutcome) (now : Nat)
    (campaign : Campaign) : Db × Nat × Nat :=
  (db.targets.filter (fun ct => ct.campaign_id == cid && ct.status == .pending)).foldl
    (dispatchStep outcome now campaign.name
      (((findTemplate db campaign.template_id).map Template.name).getD ""))
    (db, 0, 0)

lemma send_campaign_emails_eq_fold (db : Db) (cid : Nat) (outcome : Nat → SendOutcome)
    (now : Nat) (campaign : Campaign) (hfc : findCampaign db cid = some campaign) :
    (send_campaign_emails db cid outcome now).1.targets
        = (dispatchFoldRes db cid outcome now campaign).1.targets ∧
    (send_campaign_emails db cid outcome now).1.events
        = (dispatchFoldRes db cid outcome now campaign).1.events ∧
    (send_campaign_emails db cid outcome now).2
        = (dispatchFoldRes db cid outcome now campaign).2 := by
  unfold send_campaign_emails dispatchFoldRes
  rw [hfc]
  dsimp only
  split
  · split
    · exact ⟨rfl, rfl, rfl⟩
    · exact ⟨rfl, rfl, rfl⟩
  · exact ⟨rfl, rfl, rfl⟩

/-- A one-pending-target store for the dispatcher counterexample. -/
def dbC5 : Db :=
  { campaigns := [{ campEx with status := .active }]
    templates := []
    targets := [{ ctEx with status := .pending }]
    events := [] }

/-- C5 counterexample: the claim says a mail-capability failure appends a
`bounced` event recording the reason.  Running the dispatcher on one pending
target whose send reports failure appends no event at all (the event log
stays empty — in particular no `bounced` event), counts one error, and
leaves the target `pending`.  `log_error_event` runs only when an exception
escapes the loop body, which a reported send failure never does. -/
theorem C5_bounced_counterexample :
    (send_campaign_emails dbC5 1 (fun _ => .failure) 7).1.events = [] ∧
    statusOfId (send_campaign_emails dbC5 1 (fun _ => .failure) 7).1 1 = some .pending ∧
    (send_campaign_emails dbC5 1 (fun _ => .failure) 7).2 = (0, 1) :=
  ⟨rfl, rfl, rfl⟩

/-- C5 amended: during a dispatcher run every snapshot target is processed
(success plus error counts equal the pending count, so one failure never
aborts the run) and, per target: on success a `sent` event is appended and
the row advances to `sent` with `sent_at` set; when the mail capability
reports failure, no event of that target is appended (no `bounced` record)
and the row is left exactly as it was — still `pending` and retryable; only
when an exception escapes the per-target body is a `bounced` event with the
exception message appended, the row again left `pending`. -/
theorem C5_bounced_amended (db : Db) (cid : Nat) (outcome : Nat → SendOutcome)
    (now : Nat) (campaign : Campaign)
    (hnd : (db.targets.map CampaignTarget.id).Nodup)
    (hfc : findCampaign db cid = some campaign) :
    (send_campaign_emails db cid outcome now).2.1
        + (send_campaign_emails db cid outcome now).2.2 = pendingCount db cid ∧
    ∀ ct ∈ db.targets.filter (fun c => c.campaign_id == cid && c.status == .pending),
      (outcome ct.id = .success →
        sentEventOf ct.id now campaign.name
            (((findTemplate db campaign.template_id).map Template.name).getD "")
          ∈ (send_campaign_emails db cid outcome now).1.events ∧
        rowOfId (send_campaign_emails db cid outcome now).1 ct.id
          = some { ct with status := .sent, sent_at := some now }) ∧
      (outcome ct.id = .failure →
        (send_campaign_emails db cid outcome now).1.events.filter
            (fun e => e.campaign_target_id == ct.id)
          = db.events.filter (fun e => e.campaign_target_id == ct.id) ∧
        rowOfId (send_campaign_emails db cid outcome now).1 ct.id = some ct) ∧
      (∀ m, outcome ct.id = .exceptionMsg m →
        bouncedEventOf ct.id m now ∈ (send_campaign_emails db cid outcome now).1.events ∧
        rowOfId (send_campaign_emails db cid outcome now).1 ct.id = some ct) := by
  obtain ⟨hT, hE, hC⟩ := send_campaign_emails_eq_fold db cid outcome now campaign hfc
  set cn := campaign.name with hcn
  set tn := (((findTemplate db campaign.template_id).map Template.name).getD "") with htn
  set pend := db.targets.filter (fun c => c.campaign_id == cid && c.status == .pending)
    with hpend
  have hfold : dispatchFoldRes db cid outcome now campaign
      = pend.foldl (dispatchStep outcome now cn tn) (db, 0, 0) := rfl
  constructor
  · rw [hC, hfold, dispatchFold_counts]
    show 0 + 0 + pend.length = pendingCount db cid
    simp only [Nat.zero_add]
    rfl
  · intro ct hct
    have hctdb : ct ∈ db.targets := List.mem_of_mem_filter hct
    have hrowdb : rowOfId db ct.id = some ct := find?_id_of_nodup hnd hctdb
    have hpendnd : (pend.map CampaignTarget.id).Nodup :=
      ((List.filter_sublist _).map CampaignTarget.id).nodup hnd
    obtain ⟨l1, l2, hsplit⟩ := List.append_of_mem hct
    have hnd12 : ((l1.map CampaignTarget.id) ++ ct.id :: l2.map CampaignTarget.id).Nodup := by
      rw [hsplit] at hpendnd
      simpa using hpendnd
    have hne1 : ∀ c ∈ l1, c.id ≠ ct.id := by
      intro c hc he
      have hmem : ct.id ∈ ct.id :: l2.map CampaignTarget.id := List.mem_cons_self _ _
      exact (List.disjoint_of_nodup_append hnd12) (he ▸ List.mem_map_of_mem _ hc) hmem
    have hne2 : ∀ c ∈ l2, c.id ≠ ct.id := by
      intro c hc he
      have h2 := (List.nodup_append.mp hnd12).2.1
      rw [List.nodup_cons] at h2
      exact h2.1 (he ▸ List.mem_map_of_mem _ hc)
    have hres : dispatchFoldRes db cid outcome now campaign
        = l2.foldl (dispatchStep outcome now cn tn)
            (dispatchStep outcome now cn tn
              (l1.foldl (dispatchStep outcome now cn tn) (db, 0, 0)) ct) := by
      rw [hfold, hsplit, List.foldl_append, List.foldl_cons]
    set acc1 := l1.foldl (dispatchStep outcome now cn tn) (db, 0, 0) with hacc1
    have hrow1 : rowOfId acc1.1 ct.id = some ct := by
      rw [hacc1, dispatchFold_row_ne outcome now cn tn l1 (db, 0, 0) ct.id hne1]
      exact hrowdb
    have hevf1 : acc1.1.events.filter (fun e => e.campaign_target_id == ct.id)
        = db.events.filter (fun e => e.campaign_target_id == ct.id) := by
      rw [hacc1, dispatchFold_events_filter outcome now cn tn l1 (db, 0, 0) ct.id hne1]
    refine ⟨?_, ?_, ?_⟩
    · intro houtc
      have hstep_ev : (dispatchStep outcome now cn tn acc1 ct).1.events
          = acc1.1.events ++ [sentEventOf ct.id now cn tn] := by
        unfold dispatchStep
        rw [houtc]
        rfl
      have hstep_row := dispatchStep_row_success outcome now cn tn acc1 ct ct houtc hrow1
      obtain ⟨ex2, hex2⟩ := dispatchFold_events_mono outcome now cn tn l2
        (dispatchStep outcome now cn tn acc1 ct)
      constructor
      · rw [hE, hres, hex2, hstep_ev]
        simp
      · rw [rowOfId_congr hT, hres,
          dispatchFold_row_ne outcome now cn tn l2 _ ct.id hne2, hstep_row]
    · intro houtc
      have hstep : (dispatchStep outcome now cn tn acc1 ct).1 = acc1.1 := by
        unfold dispatchStep
        rw [houtc]
      constructor
      · rw [hE, hres, dispatchFold_events_filter outcome now cn tn l2 _ ct.id hne2,
          hstep, hevf1]
      · rw [rowOfId_congr hT, hres,
          dispatchFold_row_ne outcome now cn tn l2 _ ct.id hne2, hstep, hrow1]
    · intro m houtc
      have hstep_ev : (dispatchStep outcome now cn tn acc1 ct).1.events
          = acc1.1.events ++ [bouncedEventOf ct.id m now] := by
        unfold dispatchStep
        rw [houtc]
        rfl
      have hstep_row : rowOfId (dispatchStep outcome now cn tn acc1 ct).1 ct.id
          = rowOfId acc1.1 ct.id := by
        unfold dispatchStep
        rw [houtc]
        rfl
      obtain ⟨ex2, hex2⟩ := dispatchFold_events_mono outcome now cn tn l2
        (dispatchStep outcome now cn tn acc1 ct)
      constructor
      · rw [hE, hres, hex2, hstep_ev]
        simp
      · rw [rowOfId_congr hT, hres,
          dispatchFold_row_ne outcome now cn tn l2 _ ct.id hne2, hstep_row, hrow1]

/-- The mixed dispatcher run of the witness: target 1 succeeds, every other
target's processing raises. -/
def ocEx : Nat → SendOutcome :=
  fun i => if i = 1 then .success else .exceptionMsg "smtp down"

/-- The pending twin of `ctEx`. -/
def ctPendEx : CampaignTarget := { ctEx with status := .pending }

/-- A second pending target. -/
def ct2Ex : CampaignTarget :=
  { ctEx with id := 2, target_id := 2, status := .pending, unique_token := "tok2" }

/-- A two-pending-target store for the dispatcher witness. -/
def dbC5b : Db :=
  { campaigns := [{ campEx with status := .active }]
    templates := []
    targets := [ctPendEx, ct2Ex]
    events := [] }

/-- C5 amended witness: in the mixed run the succeeding target gets its
`sent` event and advances, the raising target gets a `bounced` event with
the message and stays `pending`, and both were processed. -/
theorem C5_bounced_amended_witness :
    sentEventOf 1 7 "C" "" ∈ (send_campaign_emails dbC5b 1 ocEx 7).1.events ∧
    bouncedEventOf 2 "smtp down" 7 ∈ (send_campaign_emails dbC5b 1 ocEx 7).1.events ∧
    rowOfId (send_campaign_emails dbC5b 1 ocEx 7).1 2 = some ct2Ex ∧
    (send_campaign_emails dbC5b 1 ocEx 7).2.1 + (send_campaign_emails dbC5b 1 ocEx 7).2.2
      = pendingCount dbC5b 1 := by
  have hnd : (dbC5b.targets.map CampaignTarget.id).Nodup := by
    have hmap : dbC5b.targets.map CampaignTarget.id = [1, 2] := rfl
    rw [hmap]
    decide
  have h := C5_bounced_amended dbC5b 1 ocEx 7 { campEx with status := .active } hnd rfl
  have hfilter : dbC5b.targets.filter
      (fun c => c.campaign_id == 1 && c.status == TargetStatus.pending)
      = [ctPendEx, ct2Ex] := rfl
  have h1 := (h.2 ctPendEx (by rw [hfilter]; exact List.mem_cons_self _ _)).1 rfl
  have h2 := (h.2 ct2Ex
    (by rw [hfilter]; exact List.mem_cons_of_mem _ (List.mem_cons_self _ _))).2.2
    "smtp down" rfl
  exact ⟨h1.1, h2.1, h2.2, h.1⟩

/-- CPython `uuid.uuid4()`: `UUID(bytes=os.urandom(16), version=4)` keeps
the 16 random bytes except that byte 6's high nibble is forced to `4` (the
version) and byte 8's top two bits to `10` (the RFC 4122 variant). -/
def uuid4Bytes (seed : Fin 16 → Fin 256) : Fin 16 → Fin 256 :=
  fun i =>
    if i.val = 6 then ⟨(seed 6).val % 16 + 64, by omega⟩
    else if i.val = 8 then ⟨(seed 8).val % 64 + 128, by omega⟩
    else seed i

/-- Lowercase hex digit, as `%x` formatting produces. -/
def hexDigitChar (n : Nat) : Char :=
  if n < 10 then Char.ofNat (48 + n) else Char.ofNat (87 + n)

/-- `uuid.uuid4().hex`: 32 lowercase hex characters, two per byte. -/
def uuid4Hex (seed : Fin 16 → Fin 256) : List Char :=
  (List.finRange 16).bind (fun i =>
    [hexDigitChar ((uuid4Bytes seed i).val / 16), hexDigitChar ((uuid4Bytes seed i).val % 16)])

/-- `CampaignTarget.__init__` (models.py lines 108-111): a provided token is
kept; otherwise `uuid.uuid4().hex` is generated, once, at creation. -/
def campaignTargetToken (provided : Option (List Char)) (seed : Fin 16 → Fin 256) :
    List Char :=
  match provided with
  | some t => t
  | none => uuid4Hex seed

/-- A byte array of the shape `uuid4` emits: version nibble 4, variant 10.
There are exactly `2^122` such arrays. -/
def IsCanonicalSeed (b : Fin 16 → Fin 256) : Prop :=
  (b 6).val / 16 = 4 ∧ (b 8).val / 64 = 2

/-- The lowercase hex alphabet (all URL-safe characters). -/
def hexAlphabet : List Char := "0123456789abcdef".toList

/-- The all-zero seed. -/
def seedA : Fin 16 → Fin 256 := fun _ => ⟨0, by omega⟩

/-- The seed that differs from `seedA` only in byte 6's version nibble. -/
def seedB : Fin 16 → Fin 256 := fun i => if i.val = 6 then ⟨16, by omega⟩ else ⟨0, by omega⟩

/-- C8 counterexample: two different 128-bit random seeds produce the very
same generated token, so the token carries strictly fewer than 128 bits of
the seed's entropy — the claim's "at least 128 bits" fails (uuid4 discards
the 6 version/variant bits, leaving 122). -/
theorem C8_token_counterexample :
    seedA ≠ seedB ∧ campaignTargetToken none seedA = campaignTargetToken none seedB := by
  constructor
  · intro h
    have h6 := congrFun h ⟨6, by omega⟩
    rw [seedA, seedB] at h6
    simp at h6
  · decide

lemma uuid4Bytes_at6 (seed : Fin 16 → Fin 256) :
    (uuid4Bytes seed 6).val = (seed 6).val % 16 + 64 := by
  unfold uuid4Bytes
  rw [if_pos (show ((6 : Fin 16)).val = 6 from rfl)]

lemma uuid4Bytes_at8 (seed : Fin 16 → Fin 256) :
    (uuid4Bytes seed 8).val = (seed 8).val % 64 + 128 := by
  unfold uuid4Bytes
  rw [if_neg (show ¬((8 : Fin 16)).val = 6 from by decide),
    if_pos (show ((8 : Fin 16)).val = 8 from rfl)]

lemma uuid4Bytes_canonical (seed : Fin 16 → Fin 256) : IsCanonicalSeed (uuid4Bytes seed) := by
  constructor
  · rw [uuid4Bytes_at6]
    omega
  · rw [uuid4Bytes_at8]
    omega

lemma uuid4Bytes_id_of_canonical {b : Fin 16 → Fin 256} (hb : IsCanonicalSeed b) :
    uuid4Bytes b = b := by
  funext i
  unfold uuid4Bytes
  by_cases h6 : i.val = 6
  · have hi : i = 6 := Fin.ext (by simpa using h6)
    subst hi
    rw [if_pos (show ((6 : Fin 16)).val = 6 from rfl)]
    have hb1 := hb.1
    apply Fin.ext
    show (b 6).val % 16 + 64 = (b 6).val
    omega
  · by_cases h8 : i.val = 8
    · have hi : i = 8 := Fin.ext (by simpa using h8)
      subst hi
      rw [if_neg (show ¬((8 : Fin 16)).val = 6 from by decide),
        if_pos (show ((8 : Fin 16)).val = 8 from rfl)]
      have hb2 := hb.2
      apply Fin.ext
      show (b 8).val % 64 + 128 = (b 8).val
      omega
    · rw [if_neg h6, if_neg h8]

lemma uuid4Hex_length (seed : Fin 16 → Fin 256) : (uuid4Hex seed).length = 32 := by
  unfold uuid4Hex
  rw [List.length_bind]
  have hlen : (List.length ∘ fun i : Fin 16 =>
      [hexDigitChar ((uuid4Bytes seed i).val / 16),
        hexDigitChar ((uuid4Bytes seed i).val % 16)])
      = fun _ : Fin 16 => 2 := funext (fun i => rfl)
  rw [hlen]
  decide

lemma hexDigitChar_mem {n : Nat} (hn : n < 16) : hexDigitChar n ∈ hexAlphabet := by
  interval_cases n <;> decide

lemma uuid4Hex_chars (seed : Fin 16 → Fin 256) : ∀ c ∈ uuid4Hex seed, c ∈ hexAlphabet := by
  intro c hc
  unfold uuid4Hex at hc
  rw [List.mem_bind] at hc
  obtain ⟨i, -, hci⟩ := hc
  have hlt : (uuid4Bytes seed i).val < 256 := (uuid4Bytes seed i).isLt
  rcases List.mem_cons.mp hci with rfl | hci'
  · exact hexDigitChar_mem (by omega)
  · rcases List.mem_singleton.mp hci' with rfl
    exact hexDigitChar_mem (by omega)

lemma updateTarget_tokens (db : Db) (i : Nat) (f : CampaignTarget → CampaignTarget)
    (hf : ∀ c, (f c).unique_token = c.unique_token) :
    (updateTarget db i f).targets.map CampaignTarget.unique_token
      = db.targets.map CampaignTarget.unique_token := by
  unfold updateTarget
  rw [List.map_map]
  exact List.map_congr_left (fun c _ => by by_cases h : c.id = i <;> simp [h, hf])

lemma track_open_tokens (db : Db) (token : String) (req : Request) (redis : RedisResult) :
    (track_open db token req redis).2.targets.map CampaignTarget.unique_token
      = db.targets.map CampaignTarget.unique_token := by
  unfold track_open
  split
  · rfl
  · cases hfind : findTargetByToken db token with
    | none => rfl
    | some ct =>
      simp only
      split
      · rfl
      · split
        · exact updateTarget_tokens _ _ _ (fun c => rfl)
        · rfl

lemma track_click_tokens (db : Db) (token : String) (req : Request) (redis : RedisResult) :
    (track_click db token req redis).2.targets.map CampaignTarget.unique_token
      = db.targets.map CampaignTarget.unique_token := by
  unfold track_click
  split
  · rfl
  · cases hfind : findTargetByToken db token with
    | none => rfl
    | some ct =>
      simp only [clickWrap]
      split
      · rfl
      · split
        · exact updateTarget_tokens _ _ _ (fun c => rfl)
        · rfl

lemma track_submission_tokens (uaHash : String → String) (db : Db) (token : String)
    (req : Request) (redis : RedisResult) :
    (track_submission uaHash db token req redis).2.targets.map CampaignTarget.unique_token
      = db.targets.map CampaignTarget.unique_token := by
  unfold track_submission
  split
  · rfl
  · cases hfind : findTargetByToken db token with
    | none => rfl
    | some ct =>
      simp only
      split
      · rfl
      · exact updateTarget_tokens _ _ _ (fun c => rfl)

lemma runTriggers_tokens (uaHash : String → String) (db : Db) (ts : List Trigger) :
    (runTriggers uaHash db ts).targets.map CampaignTarget.unique_token
      = db.targets.map CampaignTarget.unique_token := by
  induction ts generalizing db with
  | nil => rfl
  | cons t ts ih =>
    refine (ih (stepTrigger uaHash db t)).trans ?_
    cases t with
    | openT token req redis => exact track_open_tokens db token req redis
    | clickT token req redis => exact track_click_tokens db token req redis
    | submitT token req redis => exact track_submission_tokens uaHash db token req redis

lemma dispatchStep_tokens (o : Nat → SendOutcome) (now : Nat) (cn tn : String)
    (acc : Db × Nat × Nat) (ct : CampaignTarget) :
    (dispatchStep o now cn tn acc ct).1.targets.map CampaignTarget.unique_token
      = acc.1.targets.map CampaignTarget.unique_token := by
  unfold dispatchStep
  cases o ct.id with
  | success => exact updateTarget_tokens _ _ _ (fun c => rfl)
  | failure => rfl
  | exceptionMsg m => rfl

lemma dispatchFold_tokens (o : Nat → SendOutcome) (now : Nat) (cn tn : String)
    (l : List CampaignTarget) (acc : Db × Nat × Nat) :
    ((l.foldl (dispatchStep o now cn tn) acc).1.targets.map CampaignTarget.unique_token)
      = acc.1.targets.map CampaignTarget.unique_token := by
  induction l generalizing acc with
  | nil => rfl
  | cons c cs ih =>
    rw [List.foldl_cons, ih, dispatchStep_tokens]

lemma send_campaign_emails_tokens (db : Db) (cid : Nat) (outcome : Nat → SendOutcome)
    (now : Nat) :
    (send_campaign_emails db cid outcome now).1.targets.map CampaignTarget.unique_token
      = db.targets.map CampaignTarget.unique_token := by
  unfold send_campaign_emails
  cases hfc : findCampaign db cid with
  | none => rfl
  | some campaign =>
    dsimp only
    split
    · split
      · show ((updateCampaign _ _ _).targets.map CampaignTarget.unique_token) = _
        rw [show ∀ d j f, (updateCampaign d j f).targets = d.targets from fun _ _ _ => rfl]
        exact (dispatchFold_tokens _ _ _ _ _ _).trans rfl
      · exact (dispatchFold_tokens _ _ _ _ _ _).trans rfl
    · exact (dispatchFold_tokens _ _ _ _ _ _).trans rfl

/-- C8 amended: `CampaignTarget.__init__` generates the token once, at
creation, only when none is supplied, as `uuid.uuid4().hex`: a 32-character
lowercase-hex (hence URL-safe) string obtained from a 128-bit `os.urandom`
seed whose version nibble is forced to 4 and variant bits to 10 — the
reachable byte arrays are exactly the canonical ones (the generator is the
identity on them and injective there), i.e. 122 bits of entropy, not the
claimed ≥128 (see the counterexample).  No modelled operation — any trigger
sequence or dispatcher run — ever changes any target's token; system-wide
uniqueness rests on the storage layer's unique constraint on the column. -/
theorem C8_token_amended :
    (∀ t seed, campaignTargetToken (some t) seed = t) ∧
    (∀ seed, (uuid4Hex seed).length = 32 ∧ ∀ c ∈ uuid4Hex seed, c ∈ hexAlphabet) ∧
    (∀ b, IsCanonicalSeed b ↔ ∃ s, uuid4Bytes s = b) ∧
    (∀ s1 s2, IsCanonicalSeed s1 → IsCanonicalSeed s2 → uuid4Bytes s1 = uuid4Bytes s2 →
      s1 = s2) ∧
    (∀ uaHash db ts, (runTriggers uaHash db ts).targets.map CampaignTarget.unique_token
      = db.targets.map CampaignTarget.unique_token) ∧
    (∀ db cid outcome now,
      (send_campaign_emails db cid outcome now).1.targets.map CampaignTarget.unique_token
        = db.targets.map CampaignTarget.unique_token) ∧
    (∀ db cid cfg now,
      (send_campaign db cid cfg now).2.targets.map CampaignTarget.unique_token
        = db.targets.map CampaignTarget.unique_token) := by
  refine ⟨fun t seed => rfl,
    fun seed => ⟨uuid4Hex_length seed, uuid4Hex_chars seed⟩,
    ?_, ?_, runTriggers_tokens, send_campaign_emails_tokens, ?_⟩
  · intro b
    constructor
    · intro hb
      exact ⟨b, uuid4Bytes_id_of_canonical hb⟩
    · rintro ⟨s, rfl⟩
      exact uuid4Bytes_canonical s
  · intro s1 s2 h1 h2 he
    rw [← uuid4Bytes_id_of_canonical h1, ← uuid4Bytes_id_of_canonical h2, he]
  · intro db cid cfg now
    unfold send_campaign
    cases hfc : findCampaign db cid with
    | none => rfl
    | some campaign =>
      dsimp only
      split
      · rfl
      · split
        · rfl
        · split
          · rfl
          · rfl

/-- A canonical seed (version and variant already set). -/
def seedCanon : Fin 16 → Fin 256 :=
  fun i => if i.val = 6 then ⟨64, by omega⟩ else if i.val = 8 then ⟨128, by omega⟩
    else ⟨0, by omega⟩

/-- C8 amended witness: a supplied token is kept verbatim; the generated
token is 32 chars from the hex alphabet; the canonical seed is a fixed point
of the version/variant forcing; a trigger sequence and a dispatcher run
leave the example stores' tokens untouched. -/
theorem C8_token_amended_witness :
    campaignTargetToken (some ("tok1".toList)) seedA = "tok1".toList ∧
    (uuid4Hex seedCanon).length = 32 ∧
    uuid4Bytes seedCanon = seedCanon ∧
    (runTriggers (fun s => s) dbEx [.submitT "tok1" req0 .unavailable]).targets.map
        CampaignTarget.unique_token = dbEx.targets.map CampaignTarget.unique_token ∧
    (send_campaign_emails dbC5b 1 ocEx 7).1.targets.map CampaignTarget.unique_token
      = dbC5b.targets.map CampaignTarget.unique_token := by
  have h := C8_token_amended
  refine ⟨h.1 _ seedA, (h.2.1 seedCanon).1, ?_, h.2.2.2.2.1 (fun s => s) dbEx _,
    h.2.2.2.2.2.1 dbC5b 1 ocEx 7⟩
  have hc : IsCanonicalSeed seedCanon := ⟨rfl, rfl⟩
  exact uuid4Bytes_id_of_canonical hc

/-- Python `\w` (ASCII range): letters, digits, underscore. -/
def wordChar (c : Char) : Bool := c.isAlphanum || c = '_'

/-- `"{{" + key + "}}"` (helpers.py line 25). -/
def placeholderOf (k : List Char) : List Char := '{' :: '{' :: (k ++ ['}', '}'])

/-- Python `str.replace`: replace every leftmost non-overlapping occurrence
of `pat`, scanning left to right, never re-scanning the replacement.  Fuel
recursion (any fuel ≥ the string length computes it; each step consumes at
least one character).  The empty-pattern corner of Python `replace` is never
reached: patterns here are always `{{name}}`. -/
def replaceAllF : Nat → List Char → List Char → List Char → List Char
  | 0, s, _, _ => s
  | fuel + 1, s, pat, rep =>
    match s with
    | [] => []
    | c :: cs =>
      if pat ≠ [] ∧ pat.isPrefixOf (c :: cs) then
        rep ++ replaceAllF fuel ((c :: cs).drop pat.length) pat rep
      else c :: replaceAllF fuel cs pat rep

/-- `content.replace(pat, rep)`. -/
def replaceAll (s pat rep : List Char) : List Char := replaceAllF s.length s pat rep

/-- Python `pat in s`. -/
def containsPat (s pat : List Char) : Bool :=
  match s with
  | [] => pat.isEmpty
  | c :: cs => pat.isPrefixOf (c :: cs) || containsPat cs pat

/-- `render_template_content` (helpers.py lines 20-29): for each variable in
order, when its `{{key}}` occurs in the current content, replace every
occurrence by the value. -/
def render_template_content (content : List Char)
    (vars : List (List Char × List Char)) : List Char :=
  vars.foldl
    (fun c kv =>
      if containsPat c (placeholderOf kv.1) then replaceAll c (placeholderOf kv.1) kv.2
      else c) content

/-- The substitution the claim describes, written from its words: scan the
template once, left to right; an occurrence of `{{name}}` for a substituted
name emits that variable's value verbatim; every other character is copied
verbatim.  Used only to compare against the source's sequential renderer. -/
def renderSimultaneousF : Nat → List (List Char × List Char) → List Char → List Char
  | 0, _, s => s
  | fuel + 1, vars, s =>
    match s with
    | [] => []
    | c :: cs =>
      match vars.find? (fun kv => (placeholderOf kv.1).isPrefixOf (c :: cs)) with
      | some kv =>
        kv.2 ++ renderSimultaneousF fuel vars ((c :: cs).drop (placeholderOf kv.1).length)
      | none => c :: renderSimultaneousF fuel vars cs

/-- One-pass simultaneous substitution per the claim. -/
def renderSimultaneous (vars : List (List Char × List Char)) (s : List Char) :
    List Char :=
  renderSimultaneousF s.length vars s

/-- `re.findall(r'\{\{(\w+)\}\}', content)` (security.py line 140): scan
left to right; at a `{{` try the maximal word run followed by `}}` (greedy
`\w+` never needs backtracking because `}` is not a word character); on a
match capture the name and resume after it, otherwise advance one character.
Fuel recursion as above. -/
def findVarsF : Nat → List Char → List (List Char)
  | 0, _ => []
  | fuel + 1, s =>
    match s with
    | [] => []
    | [_] => []
    | c1 :: c2 :: rest =>
      if c1 = '{' ∧ c2 = '{' then
        let w := rest.takeWhile wordChar
        if w ≠ [] ∧ (rest.drop w.length).take 2 = ['}', '}'] then
          w :: findVarsF fuel ((rest.drop w.length).drop 2)
        else findVarsF fuel (c2 :: rest)
      else findVarsF fuel (c2 :: rest)

/-- The placeholder names found in a template. -/
def findVars (s : List Char) : List (List Char) := findVarsF s.length s

/-- The recognized placeholder vocabulary (security.py lines 142-146). -/
def allowed_variables : List (List Char) :=
  ["first_name", "last_name", "email", "department", "company",
    "click_url", "tracking_pixel", "tracking_number", "campaign_name",
    "sender_name", "sender_email"].map String.toList

/-- The `for var in variables: if var not in allowed: raise ValueError`
loop: `.error v` is the raised ValueError naming the first bad variable. -/
def checkVars : List (List Char) → Except (List Char) Bool
  | [] => .ok true
  | v :: vs => if v ∈ allowed_variables then checkVars vs else .error v

/-- `validate_template_variables` (security.py lines 136-152). -/
def validate_template_variables (content : List Char) : Except (List Char) Bool :=
  checkVars (findVars content)

/-- The variable assignment of the counterexample: `first_name` maps to the
literal text `{{email}}`, `email` maps to an address. -/
def varsCE : List (List Char × List Char) :=
  [("first_name".toList, placeholderOf ("email".toList)),
    ("email".toList, "x@y.com".toList)]

/-- C9 counterexample: rendering the template `{{first_name}}` under
`varsCE`.  The claim's semantics — each `{{name}}` occurrence replaced by
that variable's value, every other piece left verbatim — produces the
literal `{{email}}`; the code's sequential passes substitute the value
again and produce `x@y.com`.  The two differ, so the claim as stated is
false for this template and assignment. -/
theorem C9_render_counterexample :
    render_template_content (placeholderOf ("first_name".toList)) varsCE
      = "x@y.com".toList ∧
    renderSimultaneous varsCE (placeholderOf ("first_name".toList))
      = placeholderOf ("email".toList) ∧
    ("x@y.com".toList : List Char) ≠ placeholderOf ("email".toList) := by
  refine ⟨by decide, by decide, by decide⟩

lemma replaceAllF_id {pat : List Char} : ∀ (fuel : Nat) (s rep : List Char),
    containsPat s pat = false → replaceAllF fuel s pat rep = s := by
  intro fuel
  induction fuel with
  | zero => intro s rep _; rfl
  | succ fuel ih =>
    intro s rep h
    cases s with
    | nil => rfl
    | cons c cs =>
      unfold containsPat at h
      rw [Bool.or_eq_false_iff] at h
      simp only [replaceAllF]
      rw [if_neg (by simp [h.1]), ih cs rep h.2]

lemma render_id (content : List Char) (vars : List (List Char × List Char))
    (h : ∀ kv ∈ vars, containsPat content (placeholderOf kv.1) = false) :
    render_template_content content vars = content := by
  induction vars with
  | nil => rfl
  | cons kv vs ih =>
    unfold render_template_content
    rw [List.foldl_cons, if_neg (by simp [h kv (List.mem_cons_self kv vs)])]
    exact ih (fun kv' hkv' => h kv' (List.mem_cons_of_mem kv hkv'))

lemma takeWhile_word_append {l : List Char} : ∀ {name : List Char},
    (∀ c ∈ name, wordChar c = true) → (name ++ '}' :: l).takeWhile wordChar = name := by
  intro name
  induction name with
  | nil =>
    intro _
    rw [List.nil_append, List.takeWhile_cons_of_neg (by decide)]
  | cons c name' ih =>
    intro hw
    rw [List.cons_append, List.takeWhile_cons_of_pos (hw c (List.mem_cons_self c name'))]
    rw [ih (fun c' hc' => hw c' (List.mem_cons_of_mem c hc'))]

/-- A literal `{` cannot sit inside the word run or the two closing braces
of a recognized match, so an occurrence starting past a match's word run
starts after the whole match. -/
lemma brace_needs_room {Z T : List Char} : ∀ {w A : List Char},
    (∀ c ∈ w, wordChar c = true) → A ++ '{' :: Z = w ++ '}' :: '}' :: T →
    w.length + 2 ≤ A.length := by
  intro w
  induction w with
  | nil =>
    intro A _ he
    rw [List.nil_append] at he
    cases A with
    | nil =>
      rw [List.nil_append] at he
      have h1 : '{' = '}' := (List.cons.injEq _ _ _ _).mp he |>.1
      exact absurd h1 (by decide)
    | cons a A1 =>
      cases A1 with
      | nil =>
        rw [List.cons_append, List.nil_append] at he
        have h2 := ((List.cons.injEq _ _ _ _).mp he).2
        have h1 : '{' = '}' := ((List.cons.injEq _ _ _ _).mp h2).1
        exact absurd h1 (by decide)
      | cons b A2 =>
        simp only [List.length_cons, List.length_nil]
        omega
  | cons wc w' ih =>
    intro A hw he
    cases A with
    | nil =>
      rw [List.nil_append, List.cons_append] at he
      have h1 : '{' = wc := ((List.cons.injEq _ _ _ _).mp he).1
      have := hw wc (List.mem_cons_self wc w')
      rw [← h1] at this
      exact absurd this (by decide)
    | cons a A1 =>
      rw [List.cons_append, List.cons_append] at he
      have h2 := ((List.cons.injEq _ _ _ _).mp he).2
      have := ih (fun c hc => hw c (List.mem_cons_of_mem wc hc)) h2
      simp only [List.length_cons]
      omega

lemma findVarsF_complete : ∀ (fuel : Nat) (s pre post name : List Char),
    s.length ≤ fuel →
    (∀ c ∈ name, wordChar c = true) → name ≠ [] →
    s = pre ++ placeholderOf name ++ post →
    name ∈ findVarsF fuel s := by
  intro fuel
  induction fuel with
  | zero =>
    intro s pre post name hlen hw hne hs
    have hnl : 0 < name.length := List.length_pos.mpr hne
    have := congrArg List.length hs
    simp [placeholderOf] at this
    omega
  | succ fuel ih =>
    intro s pre post name hlen hw hne hs
    have hnl : 0 < name.length := List.length_pos.mpr hne
    cases s with
    | nil =>
      have := congrArg List.length hs
      simp [placeholderOf] at this
      omega
    | cons c1 s1 =>
      cases s1 with
      | nil =>
        have := congrArg List.length hs
        simp [placeholderOf] at this
        omega
      | cons c2 rest =>
        cases pre with
        | nil =>
          rw [List.nil_append, placeholderOf, List.cons_append, List.cons_append] at hs
          obtain ⟨h1, hs2⟩ := (List.cons.injEq _ _ _ _).mp hs
          obtain ⟨h2, h3⟩ := (List.cons.injEq _ _ _ _).mp hs2
          have hrest : rest = name ++ '}' :: '}' :: post := by
            rw [h3]
            simp
          simp only [findVarsF]
          rw [if_pos ⟨h1, h2⟩]
          have hwtake : rest.takeWhile wordChar = name := by
            rw [hrest]
            exact takeWhile_word_append hw
          have hdrop : rest.drop name.length = '}' :: '}' :: post := by
            rw [hrest]
            exact List.drop_left name _
          rw [hwtake, hdrop]
          rw [if_pos ⟨hne, rfl⟩]
          exact List.mem_cons_self name _
        | cons p1 pre1 =>
          rw [List.cons_append, List.cons_append] at hs
          obtain ⟨h1, htail⟩ := (List.cons.injEq _ _ _ _).mp hs
          have hlen' : (c2 :: rest).length ≤ fuel := by
            simp only [List.length_cons] at hlen ⊢
            omega
          have hrec : name ∈ findVarsF fuel (c2 :: rest) :=
            ih (c2 :: rest) pre1 post name hlen' hw hne htail
          simp only [findVarsF]
          by_cases hbr : c1 = '{' ∧ c2 = '{'
          · rw [if_pos hbr]
            by_cases hcond : (rest.takeWhile wordChar) ≠ [] ∧
                ((rest.drop (rest.takeWhile wordChar).length).take 2 = ['}', '}'])
            · rw [if_pos hcond]
              set w := rest.takeWhile wordChar with hwdef
              set d := rest.drop w.length with hddef
              have hwpre : w <+: rest := hwdef ▸ List.takeWhile_prefix wordChar
              obtain ⟨t, ht⟩ := hwpre
              have htd : t = d := by
                rw [hddef, ← ht, List.drop_left]
              subst htd
              have hd2 : d = '}' :: '}' :: d.drop 2 := by
                conv_lhs => rw [← List.take_append_drop 2 d]
                rw [hcond.2]
                rfl
              have hwword : ∀ c ∈ w, wordChar c = true := by
                intro c hc
                exact List.mem_takeWhile_imp (hwdef ▸ hc)
              have hc2 : c2 = '{' := hbr.2
              cases pre1 with
              | nil =>
                rw [List.nil_append, placeholderOf, List.cons_append] at htail
                obtain ⟨-, hrest⟩ := (List.cons.injEq _ _ _ _).mp htail
                rcases hw0 : w with _ | ⟨wc, w1⟩
                · exact absurd hw0 hcond.1
                · have hhead : rest = wc :: (w1 ++ d) := by
                    rw [← ht, hw0, List.cons_append]
                  rw [hrest, List.cons_append] at hhead
                  have : '{' = wc := ((List.cons.injEq _ _ _ _).mp hhead).1
                  have hword := hwword wc (hw0 ▸ List.mem_cons_self wc w1)
                  rw [← this] at hword
                  exact absurd hword (by decide)
              | cons q1 pre2 =>
                rw [List.cons_append, List.cons_append] at htail
                obtain ⟨-, hrest⟩ := (List.cons.injEq _ _ _ _).mp htail
                -- rest = pre2 ++ ph ++ post = w ++ '}'::'}'::(d.drop 2)
                have hkey : pre2 ++ placeholderOf name ++ post = w ++ '}' :: '}' :: d.drop 2 := by
                  rw [← hrest, ← ht]
                  conv_lhs => rw [hd2]
                have hroom : w.length + 2 ≤ pre2.length := by
                  have hkey' := hkey
                  rw [placeholderOf] at hkey'
                  rw [show pre2 ++ ('{' :: '{' :: (name ++ ['}', '}'])) ++ post
                      = pre2 ++ '{' :: ('{' :: (name ++ ['}', '}']) ++ post) by simp] at hkey'
                  exact @brace_needs_room _ _ w pre2 hwword hkey'
                have hsplit2 : (w ++ ['}', '}']) ++ d.drop 2 = pre2 ++ (placeholderOf name ++ post) := by
                  have hk := hkey
                  simp only [List.append_assoc] at hk
                  simp only [List.append_assoc, List.cons_append, List.nil_append]
                  exact hk.symm
                rcases List.append_eq_append_iff.mp hsplit2 with ⟨a', ha1, ha2⟩ | ⟨c', hc1, hc2⟩
                · -- pre2 = (w ++ ['}','}']) ++ a' and d.drop 2 = a' ++ (ph ++ post)
                  have hT : name ∈ findVarsF fuel (d.drop 2) := by
                    refine ih (d.drop 2) a' post name ?_ hw hne ?_
                    · have h1 := congrArg List.length ht
                      have h2 := congrArg List.length hd2
                      simp only [List.length_append, List.length_cons] at h1 h2
                      simp only [List.length_cons] at hlen
                      omega
                    · rw [ha2, List.append_assoc]
                  exact List.mem_cons_of_mem _ hT
                · -- w ++ ['}','}'] = pre2 ++ c' and ph ++ post = c' ++ d.drop 2
                  have hlc : c'.length = 0 := by
                    have h1 := congrArg List.length hc1
                    simp only [List.length_append] at h1
                    simp at h1
                    omega
                  have hc0 : c' = [] := List.eq_nil_of_length_eq_zero hlc
                  subst hc0
                  rw [List.nil_append] at hc2
                  have hT : name ∈ findVarsF fuel (d.drop 2) := by
                    refine ih (d.drop 2) [] post name ?_ hw hne ?_
                    · have h1 := congrArg List.length ht
                      have h2 := congrArg List.length hd2
                      simp only [List.length_append, List.length_cons] at h1 h2
                      simp only [List.length_cons] at hlen
                      omega
                    · rw [List.nil_append]
                      exact hc2.symm
                  exact List.mem_cons_of_mem _ hT
            · rw [if_neg hcond]
              exact hrec
          · rw [if_neg hbr]
            exact hrec

lemma checkVars_error {v : List Char} : ∀ {vs : List (List Char)},
    v ∈ vs → v ∉ allowed_variables → ∃ e, checkVars vs = .error e := by
  intro vs
  induction vs with
  | nil => intro hmem; cases hmem
  | cons u us ih =>
    intro hmem hbad
    by_cases hu : u ∈ allowed_variables
    · rcases List.mem_cons.mp hmem with rfl | hm'
      · exact absurd hu hbad
      · obtain ⟨e, he⟩ := ih hm' hbad
        exact ⟨e, by simp [checkVars, hu, he]⟩
    · exact ⟨u, by simp [checkVars, hu]⟩

/-- C9 amended: rendering is a literal find/replace applied sequentially,
one pass per variable in assignment order, so a substituted value that
itself contains a recognized placeholder is substituted again by a later
pass (`{{first_name}}` with `first_name = "{{email}}"` renders to the email
value, not to the literal `{{email}}` that one-pass substitution would
give); a template containing no substituted variable's placeholder is
returned verbatim, so unknown placeholders are preserved; and template
validation raises for any template containing a `{{name}}` placeholder
whose nonempty word name is outside the recognized eleven-name set, and
accepts templates whose placeholders are all recognized. -/
theorem C9_render_amended :
    (∀ content vars, (∀ kv ∈ vars, containsPat content (placeholderOf kv.1) = false) →
      render_template_content content vars = content) ∧
    (∀ content pre post name, (∀ c ∈ name, wordChar c = true) → name ≠ [] →
      name ∉ allowed_variables → content = pre ++ placeholderOf name ++ post →
      ∃ e, validate_template_variables content = .error e) ∧
    render_template_content (placeholderOf ("first_name".toList)) varsCE
      = "x@y.com".toList ∧
    validate_template_variables (placeholderOf ("first_name".toList)) = .ok true ∧
    validate_template_variables (placeholderOf ("evil_var".toList))
      = .error ("evil_var".toList) := by
  refine ⟨render_id, ?_, by decide, by rfl, by rfl⟩
  intro content pre post name hw hne hbad hs
  have hmem : name ∈ findVars content :=
    findVarsF_complete content.length content pre post name (le_refl _) hw hne hs
  exact checkVars_error hmem hbad

/-- C9 amended witness: a template with no substituted placeholder renders
verbatim, and a template carrying `{{evil_var}}` is rejected. -/
theorem C9_render_amended_witness :
    render_template_content ("Dear user".toList) varsCE = "Dear user".toList ∧
    ∃ e, validate_template_variables ("Hi ".toList ++ placeholderOf ("evil_var".toList))
      = .error e := by
  have h := C9_render_amended
  refine ⟨h.1 _ varsCE (by decide), ?_⟩
  exact h.2.1 _ ("Hi ".toList) [] ("evil_var".toList) (by decide) (by decide) (by decide)
    (by simp)

end Phishing
